import Mathlib

/-!
# Verification of the release lifecycle and storage engine

A shallow embedding, in Lean 4, of the core of the `kdada/helm` release
lifecycle code:

* `pkg/storage/storage.go` — the release store and its key derivation
  (`splitName`, `key`, `keyForRelease`, `makeKey`, `Create`, `Update`,
  `Last`, `History`);
* the tiller update orchestrator (`UpdateRelease`, `prepareUpdate`,
  `performUpdate`);
* `pkg/engine/pollute.go` — the manifest provenance injector
  (`pollute`, `merge`).

Go strings are embedded as Lean `String`, Go maps `map[string]string` as
association lists with first-match lookup and in-place replacement
(matching Go map update semantics observationally), pointers to records
as explicit state passing (every in-place mutation of a Go struct becomes
returning the updated copy), and fallible operations as `Option`/`Except`.
External collaborators (renderer, validator, hook runner, execution
module, codec) are parameters: their observable outcomes are inputs to
the embedded orchestrator.
-/

namespace HelmSpec

/-! ## Storage key derivation (`pkg/storage/storage.go`) -/

/-- Embedding of Go `strings.Split(s, sep)` at the character-list level:
splits a character list on a single separator character.  `strings.Split`
on a single-character separator yields the (possibly empty) segments
between occurrences of the separator, and `[""]` on the empty string. -/
def splitChar (sep : Char) : List Char → List (List Char)
  | [] => [[]]
  | c :: rest =>
    match splitChar sep rest with
    | [] => [[c]]
    | g :: gs => if c = sep then [] :: g :: gs else (c :: g) :: gs

/-- `splitName` from `storage.go` lines 173–183: splits a possibly
namespaced name on `"/"`.  Zero segments gives `("", "")`, exactly two
gives `(namespace, name)`, any other count keeps only the last segment as
the name with an empty namespace. -/
def splitName (name : String) : String × String :=
  let results := (splitChar '/' name.data).map (fun l => String.mk l)
  match results with
  | [] => ("", "")
  | [a] => ("", a)
  | [a, b] => (a, b)
  | other => ("", other.getLastD "")

/-- `key` from `storage.go` lines 185–191: the identity portion of a
storage key, `name` when the namespace is empty and `name ++ "." ++
namespace` otherwise. -/
def key (nspace name : String) : String :=
  if nspace = "" then name else name ++ "." ++ nspace

/-- `makeKey` from `storage.go` lines 199–204: appends the version as
`".v<version>"` to the identity portion (`fmt.Sprintf("%s.v%d", ...)`;
the release version is a Go `int32`, embedded as `Int`). -/
def makeKey (rlsname : String) (version : Int) : String :=
  rlsname ++ ".v" ++ toString version

/-! ## Character-list facts for key injectivity -/

theorem splitChar_ne_nil (sep : Char) (cs : List Char) : splitChar sep cs ≠ [] := by
  cases cs with
  | nil => simp [splitChar]
  | cons c rest =>
    simp only [splitChar]
    cases h : splitChar sep rest with
    | nil => simp
    | cons g gs => by_cases hc : c = sep <;> simp [hc]

theorem splitChar_not_mem (sep : Char) :
    ∀ cs : List Char, ∀ g ∈ splitChar sep cs, sep ∉ g := by
  intro cs
  induction cs with
  | nil =>
    intro g hg
    simp [splitChar] at hg
    simp [hg]
  | cons c rest ih =>
    intro g hg
    cases hcase : splitChar sep rest with
    | nil => exact absurd hcase (splitChar_ne_nil sep rest)
    | cons g0 gs =>
      simp only [splitChar, hcase] at hg
      rw [hcase] at ih
      by_cases hc : c = sep
      · rw [if_pos hc] at hg
        rcases List.mem_cons.mp hg with rfl | hg
        · simp
        · exact ih g hg
      · rw [if_neg hc] at hg
        rcases List.mem_cons.mp hg with rfl | hg
        · intro hmem
          rcases List.mem_cons.mp hmem with rfl | hmem
          · exact hc rfl
          · exact ih g0 (List.mem_cons_self _ _) hmem
        · exact ih g (List.mem_cons_of_mem _ hg)

theorem splitChar_of_not_mem (sep : Char) (cs : List Char) (h : sep ∉ cs) :
    splitChar sep cs = [cs] := by
  induction cs with
  | nil => rfl
  | cons c rest ih =>
    have hc : ¬ c = sep := fun hcc => h (hcc ▸ List.mem_cons_self _ _)
    have hr : sep ∉ rest := fun hm => h (List.mem_cons_of_mem _ hm)
    simp only [splitChar, ih hr]
    simp [hc]

/-- If a name contains no `'/'`, splitting it yields an empty namespace
and the name itself. -/
theorem splitName_of_no_slash (name : String) (h : '/' ∉ name.data) :
    splitName name = ("", name) := by
  simp only [splitName, splitChar_of_not_mem '/' name.data h, List.map]

/-- The name component produced by `splitName` never contains `'/'`. -/
theorem splitName_snd_no_slash (name : String) :
    '/' ∉ (splitName name).2.data := by
  have hmem : ∀ s ∈ (splitChar '/' name.data).map (fun l => String.mk l),
      '/' ∉ s.data := by
    intro s hs
    rcases List.mem_map.mp hs with ⟨g, hg, rfl⟩
    exact splitChar_not_mem '/' name.data g hg
  simp only [splitName]
  cases hcase : (splitChar '/' name.data).map (fun l => String.mk l) with
  | nil => simp
  | cons a rest =>
    rw [hcase] at hmem
    cases rest with
    | nil => exact hmem a (List.mem_cons_self _ _)
    | cons b rest2 =>
      cases rest2 with
      | nil => exact hmem b (List.mem_cons_of_mem _ (List.mem_cons_self _ _))
      | cons c rest3 =>
        show '/' ∉ ((a :: b :: c :: rest3).getLastD "").data
        rw [List.getLastD_cons]
        exact hmem _ (List.getLastD_mem_cons _ _)

/-- Splitting a list at a separator occurrence is unambiguous when the
suffixes are separator-free (the shown occurrence is the last one). -/
theorem append_sep_inj (sep : Char) :
    ∀ (a₁ b₁ a₂ b₂ : List Char), sep ∉ b₁ → sep ∉ b₂ →
      a₁ ++ sep :: b₁ = a₂ ++ sep :: b₂ → a₁ = a₂ ∧ b₁ = b₂ := by
  intro a₁
  induction a₁ with
  | nil =>
    intro b₁ a₂ b₂ h₁ h₂ heq
    cases a₂ with
    | nil =>
      simp at heq
      exact ⟨rfl, heq⟩
    | cons c t =>
      simp only [List.nil_append, List.cons_append, List.cons.injEq] at heq
      exfalso
      apply h₁
      rw [heq.2]
      exact List.mem_append_right _ (List.mem_cons_self _ _)
  | cons c t ih =>
    intro b₁ a₂ b₂ h₁ h₂ heq
    cases a₂ with
    | nil =>
      simp only [List.nil_append, List.cons_append, List.cons.injEq] at heq
      exfalso
      apply h₂
      rw [← heq.2]
      exact List.mem_append_right _ (List.mem_cons_self _ _)
    | cons c' t' =>
      simp only [List.cons_append, List.cons.injEq] at heq
      obtain ⟨rfl, htail⟩ := heq
      obtain ⟨rfl, rfl⟩ := ih b₁ t' b₂ h₁ h₂ htail
      exact ⟨rfl, rfl⟩

/-! ## Decimal printing facts (`fmt.Sprintf("%d", v)` is embedded as
`toString (v : Int)`; we prove it injective and dot-free) -/

/-- Numeric value of a decimal digit character. -/
def digitToNat (c : Char) : Nat := c.toNat - '0'.toNat

/-- Decode a most-significant-first list of decimal digit characters. -/
def decodeDigits (l : List Char) : Nat :=
  l.foldl (fun a c => a * 10 + digitToNat c) 0

theorem digitToNat_digitChar : ∀ m : Nat, m < 10 →
    digitToNat (Nat.digitChar m) = m := by decide

theorem digitChar_isDigit : ∀ m : Nat, m < 10 →
    (Nat.digitChar m).isDigit = true := by decide

theorem toDigitsCore_append (fuel : Nat) :
    ∀ (n : Nat) (ds : List Char),
      Nat.toDigitsCore 10 fuel n ds = Nat.toDigitsCore 10 fuel n [] ++ ds := by
  induction fuel with
  | zero => intro n ds; simp [Nat.toDigitsCore]
  | succ f ih =>
    intro n ds
    simp only [Nat.toDigitsCore]
    by_cases h : n / 10 = 0
    · simp [h]
    · simp only [h, if_false]
      rw [ih (n / 10) (Nat.digitChar (n % 10) :: ds),
          ih (n / 10) [Nat.digitChar (n % 10)]]
      simp

theorem toDigitsCore_isDigit (fuel : Nat) :
    ∀ (n : Nat) (ds : List Char), (∀ c ∈ ds, c.isDigit = true) →
      ∀ c ∈ Nat.toDigitsCore 10 fuel n ds, c.isDigit = true := by
  induction fuel with
  | zero => intro n ds hds; simpa [Nat.toDigitsCore] using hds
  | succ f ih =>
    intro n ds hds c hc
    simp only [Nat.toDigitsCore] at hc
    have hd : (Nat.digitChar (n % 10)).isDigit = true :=
      digitChar_isDigit _ (Nat.mod_lt _ (by norm_num))
    by_cases h : n / 10 = 0
    · simp only [h, if_true] at hc
      rcases List.mem_cons.mp hc with rfl | hc
      · exact hd
      · exact hds c hc
    · simp only [h, if_false] at hc
      refine ih (n / 10) _ ?_ c hc
      intro c' hc'
      rcases List.mem_cons.mp hc' with rfl | hc'
      · exact hd
      · exact hds c' hc'

theorem toDigitsCore_ne_nil (fuel : Nat) (hf : fuel ≠ 0) (n : Nat) :
    Nat.toDigitsCore 10 fuel n [] ≠ [] := by
  cases fuel with
  | zero => exact absurd rfl hf
  | succ f =>
    simp only [Nat.toDigitsCore]
    by_cases h : n / 10 = 0
    · simp [h]
    · simp only [h, if_false]
      rw [toDigitsCore_append]
      simp

theorem decodeDigits_toDigitsCore :
    ∀ (fuel n : Nat), n < fuel →
      decodeDigits (Nat.toDigitsCore 10 fuel n []) = n := by
  intro fuel
  induction fuel with
  | zero => intro n hn; omega
  | succ f ih =>
    intro n hn
    simp only [Nat.toDigitsCore]
    by_cases h : n / 10 = 0
    · simp only [h, if_true]
      have hd := digitToNat_digitChar (n % 10) (Nat.mod_lt _ (by norm_num))
      simp only [decodeDigits, List.foldl]
      rw [hd]
      omega
    · simp only [h, if_false]
      rw [toDigitsCore_append]
      have hn10 : n / 10 < f := by
        have h1 : n / 10 < n := Nat.div_lt_self (by omega) (by norm_num)
        omega
      have hdec := ih (n / 10) hn10
      simp only [decodeDigits] at hdec ⊢
      rw [List.foldl_append]
      simp only [List.foldl]
      rw [hdec, digitToNat_digitChar (n % 10) (Nat.mod_lt _ (by norm_num))]
      omega

theorem toDigits_inj (m n : Nat)
    (h : Nat.toDigits 10 m = Nat.toDigits 10 n) : m = n := by
  have hm := decodeDigits_toDigitsCore (m + 1) m (Nat.lt_succ_self m)
  have hn := decodeDigits_toDigitsCore (n + 1) n (Nat.lt_succ_self n)
  simp only [Nat.toDigits] at h
  rw [← hm, ← hn, h]

theorem natRepr_inj (m n : Nat) (h : Nat.repr m = Nat.repr n) : m = n := by
  have hdata : (Nat.repr m).data = (Nat.repr n).data := by rw [h]
  have hm : (Nat.repr m).data = Nat.toDigits 10 m := rfl
  have hn : (Nat.repr n).data = Nat.toDigits 10 n := rfl
  exact toDigits_inj m n (by rw [← hm, ← hn, hdata])

theorem natRepr_isDigit (n : Nat) : ∀ c ∈ (Nat.repr n).data, c.isDigit = true := by
  intro c hc
  have : (Nat.repr n).data = Nat.toDigits 10 n := rfl
  rw [this] at hc
  exact toDigitsCore_isDigit (n + 1) n [] (by intro c hc; simp at hc) c hc

theorem natRepr_ne_nil (n : Nat) : (Nat.repr n).data ≠ [] := by
  have : (Nat.repr n).data = Nat.toDigits 10 n := rfl
  rw [this]
  exact toDigitsCore_ne_nil (n + 1) (Nat.succ_ne_zero n) n

theorem intToString_data (v : Int) :
    (toString v).data = match v with
      | Int.ofNat m => (Nat.repr m).data
      | Int.negSucc m => '-' :: (Nat.repr (m + 1)).data := by
  cases v with
  | ofNat m => rfl
  | negSucc m => rfl

theorem intToString_no_dot (v : Int) : '.' ∉ (toString v).data := by
  rw [intToString_data]
  cases v with
  | ofNat m =>
    intro hmem
    have := natRepr_isDigit m '.' hmem
    simp at this
  | negSucc m =>
    intro hmem
    rcases List.mem_cons.mp hmem with heq | hmem
    · exact absurd heq (by decide)
    · have := natRepr_isDigit (m + 1) '.' hmem
      simp at this

theorem intToString_inj (v w : Int) (h : toString v = toString w) : v = w := by
  cases v with
  | ofNat m =>
    cases w with
    | ofNat n =>
      have h' : Nat.repr m = Nat.repr n := h
      rw [natRepr_inj m n h']
    | negSucc n =>
      exfalso
      have hdata : (Nat.repr m).data = '-' :: (Nat.repr (n + 1)).data :=
        congrArg String.data h
      cases hcase : (Nat.repr m).data with
      | nil => exact natRepr_ne_nil m hcase
      | cons c cs =>
        rw [hcase] at hdata
        have hc : c = '-' := (List.cons.injEq _ _ _ _).mp hdata |>.1
        have hdig := natRepr_isDigit m c (by rw [hcase]; exact List.mem_cons_self _ _)
        rw [hc] at hdig
        simp at hdig
  | negSucc m =>
    cases w with
    | ofNat n =>
      exfalso
      have hdata : '-' :: (Nat.repr (m + 1)).data = (Nat.repr n).data :=
        congrArg String.data h
      cases hcase : (Nat.repr n).data with
      | nil => exact natRepr_ne_nil n hcase
      | cons c cs =>
        rw [hcase] at hdata
        have hc : '-' = c := (List.cons.injEq _ _ _ _).mp hdata |>.1
        have hdig := natRepr_isDigit n c (by rw [hcase]; exact List.mem_cons_self _ _)
        rw [← hc] at hdig
        simp at hdig
    | negSucc n =>
      have hdata : '-' :: (Nat.repr (m + 1)).data = '-' :: (Nat.repr (n + 1)).data :=
        congrArg String.data h
      have htl : (Nat.repr (m + 1)).data = (Nat.repr (n + 1)).data :=
        (List.cons.injEq _ _ _ _).mp hdata |>.2
      have hmn := natRepr_inj (m + 1) (n + 1) (String.ext htl)
      simp at hmn
      rw [hmn]

theorem key_data (nspace name : String) :
    (key nspace name).data =
      if nspace = "" then name.data else name.data ++ '.' :: nspace.data := by
  simp only [key]
  by_cases h : nspace = ""
  · simp [h]
  · simp only [h, if_false]
    show (name ++ "." ++ nspace).data = name.data ++ '.' :: nspace.data
    have : (name ++ "." ++ nspace).data = (name.data ++ ['.']) ++ nspace.data := rfl
    rw [this]
    simp

theorem makeKey_data (rlsname : String) (version : Int) :
    (makeKey rlsname version).data =
      rlsname.data ++ '.' :: 'v' :: (toString version).data := by
  show (rlsname ++ ".v" ++ toString version).data
      = rlsname.data ++ '.' :: 'v' :: (toString version).data
  have : (rlsname ++ ".v" ++ toString version).data
      = (rlsname.data ++ ['.', 'v']) ++ (toString version).data := rfl
  rw [this]
  simp

/-- Storage keys are injective on triples whose name and namespace are free
of the `'.'` separator. -/
theorem makeKey_key_inj (ns₁ n₁ : String) (v₁ : Int) (ns₂ n₂ : String) (v₂ : Int)
    (hn₁ : '.' ∉ n₁.data) (hs₁ : '.' ∉ ns₁.data)
    (hn₂ : '.' ∉ n₂.data) (hs₂ : '.' ∉ ns₂.data)
    (heq : makeKey (key ns₁ n₁) v₁ = makeKey (key ns₂ n₂) v₂) :
    ns₁ = ns₂ ∧ n₁ = n₂ ∧ v₁ = v₂ := by
  have hdata := congrArg String.data heq
  rw [makeKey_data, makeKey_data] at hdata
  have hb₁ : '.' ∉ 'v' :: (toString v₁).data := by
    intro hmem
    rcases List.mem_cons.mp hmem with h | h
    · exact absurd h (by decide)
    · exact intToString_no_dot v₁ h
  have hb₂ : '.' ∉ 'v' :: (toString v₂).data := by
    intro hmem
    rcases List.mem_cons.mp hmem with h | h
    · exact absurd h (by decide)
    · exact intToString_no_dot v₂ h
  obtain ⟨hid, hver⟩ := append_sep_inj '.' _ _ _ _ hb₁ hb₂ hdata
  have hv : v₁ = v₂ :=
    intToString_inj _ _ (String.ext (((List.cons.injEq _ _ _ _).mp hver).2))
  rw [key_data, key_data] at hid
  by_cases e₁ : ns₁ = "" <;> by_cases e₂ : ns₂ = ""
  · rw [if_pos e₁, if_pos e₂] at hid
    exact ⟨e₁.trans e₂.symm, String.ext hid, hv⟩
  · exfalso
    rw [if_pos e₁, if_neg e₂] at hid
    exact hn₁ (hid ▸ List.mem_append_right _ (List.mem_cons_self _ _))
  · exfalso
    rw [if_neg e₁, if_pos e₂] at hid
    exact hn₂ (hid ▸ List.mem_append_right _ (List.mem_cons_self _ _))
  · rw [if_neg e₁, if_neg e₂] at hid
    obtain ⟨hn, hs⟩ := append_sep_inj '.' _ _ _ _ hs₁ hs₂ hid
    exact ⟨String.ext hs, String.ext hn, hv⟩

/-! ## Release records (`pkg/proto/hapi/release`, fields used by the core) -/

/-- Release status codes (`release.Status_*`). -/
inductive StatusCode
  | unknown
  | deployed
  | failed
  | deleted
  | superseded
deriving DecidableEq, Repr

/-- `release.Info` (status code, description, notes, timestamps), with the
nested `Status` message flattened into the record. -/
structure Info where
  status : StatusCode
  description : String
  notes : String
  firstDeployed : Int
  lastDeployed : Int
deriving DecidableEq, Repr

/-- A release record.  Hooks and the chart reference are opaque to the
core and are embedded as strings; `config` mirrors the protobuf pointer
(`nil` vs present raw values). -/
structure Release where
  name : String
  nspace : String
  version : Int
  manifest : String
  hooks : List String
  config : Option String
  chart : Option String
  info : Info
  annotations : List (String × String)
deriving DecidableEq, Repr

/-! ## Storage driver (in-memory contract of `pkg/storage/driver`):
an association list from storage keys to records, with `Create` failing
on an existing key and `Update` failing on a missing key. -/

/-- The driver's backing store. -/
def Store := List (String × Release)
deriving DecidableEq

instance : Membership (String × Release) Store :=
  inferInstanceAs (Membership (String × Release) (List (String × Release)))

def Store.hasKey (st : Store) (k : String) : Bool :=
  (st : List (String × Release)).any (fun p => p.1 = k)

/-- Driver `Create`: fails (returns `none`) if the key exists. -/
def driverCreate (st : Store) (k : String) (r : Release) : Option Store :=
  if st.hasKey k then none else some ((k, r) :: (st : List (String × Release)))

/-- Driver `Update`: replaces the record at the key, fails if absent. -/
def driverUpdate : Store → String → Release → Option Store
  | [], _, _ => none
  | (k', r') :: rest, k, r =>
    if k' = k then some ((k, r) :: rest)
    else (driverUpdate rest k r).map (fun st => (k', r') :: st)

/-- Driver `Get` for one key. -/
def lookupStore : Store → String → Option Release
  | [], _ => none
  | (k', r') :: rest, k => if k' = k then some r' else lookupStore rest k

/-- Driver `Query` on the `{NAME, NAMESPACE, OWNER}` label set, as used by
`Storage.History` (`storage.go` lines 142–152): all records whose own
name and namespace fields match (all records in this store are
tiller-owned). -/
def queryHistory (st : Store) (nspace name : String) : List Release :=
  ((st : List (String × Release)).filter
    (fun p => p.2.name = name && p.2.nspace = nspace)).map (fun p => p.2)

/-! ## The release store (`storage.go`) -/

/-- `keyForRelease` from `storage.go` lines 193–197.  Note the Go source
assigns through the pointer: `_, rls.Name = splitName(rls.Name)` rewrites
the release's `Name` field in place before the key is built, so the
embedding returns the identity key together with the (possibly modified)
release record. -/
def keyForRelease (rls : Release) : String × Release :=
  let rls := { rls with name := (splitName rls.name).2 }
  (key rls.nspace rls.name, rls)

/-- `Storage.Create` (`storage.go` lines 47–51): derive the key from the
release itself and delegate to the driver.  Returns the driver outcome,
the release record as left by key derivation, and the new store. -/
def storageCreate (st : Store) (rls : Release) : Option Store × Release :=
  let p := keyForRelease rls
  (driverCreate st (makeKey p.1 p.2.version) p.2, p.2)

/-- `Storage.Update` (`storage.go` lines 56–60): same key derivation,
delegating to driver `Update`. -/
def storageUpdate (st : Store) (rls : Release) : Option Store × Release :=
  let p := keyForRelease rls
  (driverUpdate st (makeKey p.1 p.2.version) p.2, p.2)

/-- One step of selecting the highest revision, the effect of
`relutil.Reverse(h, relutil.SortByRevision)` followed by taking the head:
keep whichever of the two releases has the higher version. -/
def pickLast (acc : Option Release) (r : Release) : Option Release :=
  match acc with
  | none => some r
  | some m => if r.version > m.version then some r else some m

/-- `Storage.Last` (`storage.go` lines 155–167): split the name, query the
history, fail on empty, otherwise sort by revision descending and return
the first, i.e. a history entry with maximal version. -/
def lastRelease (st : Store) (name : String) : Option Release :=
  let p := splitName name
  (queryHistory st p.1 p.2).foldl pickLast none

/-! ## Claim C1: storage-key injectivity -/

/-- C1, as stated, is false: two distinct `(namespace, name, version)`
triples collide when the name contains the `'.'` separator.  With
namespace `""`, name `"a.b"`, version `1` and namespace `"b"`, name
`"a"`, version `1`, both storage keys are `"a.b.v1"`. -/
theorem claim_C1_counterexample :
    makeKey (key "" "a.b") 1 = makeKey (key "b" "a") 1 ∧
      ¬ ((("" : String), ("a.b" : String), (1 : Int)) = ("b", "a", 1)) := by
  constructor
  · rfl
  · decide

/-- C1 (amended): for every two distinct triples `(namespace, name,
version)` whose name and namespace contain no `'.'` separator, the
derived storage key `makeKey (key namespace name) version` differs, i.e.
the key derivation is injective on separator-free identities. -/
theorem claim_C1 (ns₁ n₁ : String) (v₁ : Int) (ns₂ n₂ : String) (v₂ : Int)
    (hn₁ : '.' ∉ n₁.data) (hs₁ : '.' ∉ ns₁.data)
    (hn₂ : '.' ∉ n₂.data) (hs₂ : '.' ∉ ns₂.data)
    (heq : makeKey (key ns₁ n₁) v₁ = makeKey (key ns₂ n₂) v₂) :
    ns₁ = ns₂ ∧ n₁ = n₂ ∧ v₁ = v₂ :=
  makeKey_key_inj ns₁ n₁ v₁ ns₂ n₂ v₂ hn₁ hs₁ hn₂ hs₂ heq

theorem claim_C1_witness :
    ("ns" : String) = "ns" ∧ ("app" : String) = "app" ∧ (3 : Int) = 3 :=
  claim_C1 "ns" "app" 3 "ns" "app" 3 (by decide) (by decide) (by decide)
    (by decide) rfl

/-! ## Claim C10: key derivation and the release record -/

/-- A release whose name still carries a namespace prefix, used to
exhibit the in-place name normalization performed by `keyForRelease`. -/
def sampleSlashRelease : Release :=
  { name := "ns/app", nspace := "ns", version := 1, manifest := "m",
    hooks := [], config := none, chart := some "c",
    info := { status := .deployed, description := "d", notes := "",
              firstDeployed := 0, lastDeployed := 0 },
    annotations := [] }

/-- C10, as stated, is false: `keyForRelease` assigns the split result
back into the release's `Name` field (`_, rls.Name = splitName(rls.Name)`
in `storage.go` line 195), so `Storage.Create` changes a record whose
name contains `'/'`: name `"ns/app"` becomes `"app"`. -/
theorem claim_C10_counterexample :
    (storageCreate [] sampleSlashRelease).2 ≠ sampleSlashRelease ∧
      (storageCreate [] sampleSlashRelease).2.name = "app" ∧
      sampleSlashRelease.name = "ns/app" := by
  refine ⟨?_, rfl, rfl⟩
  intro h
  have := congrArg Release.name h
  simp [storageCreate, keyForRelease, sampleSlashRelease, splitName, splitChar] at this

/-- C10 (amended): for every release whose `Name` contains no `'/'`
separator, `Storage.Create` and `Storage.Update` leave the release record
unchanged while deriving its storage key (the name-splitting
normalization inside `keyForRelease` is the identity there). -/
theorem claim_C10 (st : Store) (rls : Release) (h : '/' ∉ rls.name.data) :
    (storageCreate st rls).2 = rls ∧ (storageUpdate st rls).2 = rls ∧
      (keyForRelease rls).2 = rls := by
  have hsplit : splitName rls.name = ("", rls.name) :=
    splitName_of_no_slash rls.name h
  have hk : (keyForRelease rls).2 = rls := by
    simp only [keyForRelease, hsplit]
  exact ⟨hk, hk, hk⟩

/-- A well-formed release with a separator-free name. -/
def sampleRelease : Release :=
  { name := "app", nspace := "ns", version := 3, manifest := "m",
    hooks := [], config := some "cfg", chart := some "c",
    info := { status := .deployed, description := "d", notes := "",
              firstDeployed := 0, lastDeployed := 0 },
    annotations := [] }

theorem claim_C10_witness :
    (storageCreate [] sampleRelease).2 = sampleRelease ∧
      (storageUpdate [] sampleRelease).2 = sampleRelease ∧
      (keyForRelease sampleRelease).2 = sampleRelease :=
  claim_C10 [] sampleRelease (by decide)

/-! ## Manifest provenance injector (`pkg/engine/pollute.go`)

The four fixed annotation keys, the `merge` transform, and `pollute`.
The Kubernetes codec (`defaultSerializer.Decode/Encode`) and the metadata
accessor are external collaborators; they are embedded as parameters
(`decode`, `encode`) and as the `meta` field of the decoded object
(`meta = none` embeds an accessor failure, in which case both the
annotation read and the annotation write of the Go code fail). -/

def defaultPathKey : String := "helm.sh/pollutant"
def defaultNamespaceKey : String := "helm.sh/namespace"
def defaultReleaseKey : String := "helm.sh/release"
def defaultRevisionKey : String := "helm.sh/revision"

/-- Annotation sets: Go `map[string]string`, embedded as an association
list; `setA` is Go map assignment (replace the bound value, or append a
new binding). -/
def Annots := List (String × String)
deriving DecidableEq, Repr

def setA : Annots → String → String → Annots
  | [], k, v => [(k, v)]
  | (k', v') :: rest, k, v =>
    if k' = k then (k, v) :: rest else (k', v') :: setA rest k v

def lookupA : Annots → String → Option String
  | [], _ => none
  | (k', v') :: rest, k => if k' = k then some v' else lookupA rest k

/-- The `Release` sub-map of the rendering context's values:
`values["Release"]` with its `Namespace` / `Name` / `Revision` entries,
each already passed through `fmt.Sprint`.  A missing field embeds a
missing map entry. -/
structure ReleaseVals where
  nspace : Option String
  name : Option String
  revision : Option String
deriving DecidableEq, Repr

/-- The `renderable` rendering context as consumed by `merge`: the chart
path and the optional `Release` values map (`none` embeds both "no
`Release` key" and "`Release` is not a map", which Go treats alike). -/
structure Renderable where
  path : String
  release : Option ReleaseVals
deriving DecidableEq, Repr

/-- `merge` from `pollute.go` lines 130–155: write the chart-path
annotation unconditionally, then the namespace / release-name / revision
annotations for whichever `Release` entries are present. -/
def merge (origin : Option Annots) (r : Renderable) : Annots :=
  let m := match origin with
    | none => ([] : Annots)
    | some m => m
  let m := setA m defaultPathKey r.path
  match r.release with
  | none => m
  | some rel =>
    let m := match rel.nspace with
      | some v => setA m defaultNamespaceKey v
      | none => m
    let m := match rel.name with
      | some v => setA m defaultReleaseKey v
      | none => m
    match rel.revision with
    | some v => setA m defaultRevisionKey v
    | none => m

/-- The resource kinds distinguished by the type switch in `pollute.go`
lines 94–119 (six workload kinds with an embedded pod template, and
everything else). -/
inductive KubeKind
  | deployment
  | daemonSet
  | replicaSet
  | statefulSet
  | job
  | replicationController
  | other
deriving DecidableEq, Repr

/-- A decoded resource object: its kind, the top-level annotation set as
seen through the metadata accessor (`meta = none` embeds an accessor
failure; `meta = some none` embeds an absent/nil annotation map), and the
embedded pod-template annotation set (meaningful for workload kinds). -/
structure KubeObject where
  kind : KubeKind
  meta : Option (Option Annots)
  template : Option Annots
deriving DecidableEq, Repr

/-- The type switch of `pollute.go` lines 94–119: for the six workload
kinds, merge the context into the embedded pod template's annotation set;
other kinds are left untouched. -/
def polluteKind (obj : KubeObject) (r : Renderable) : KubeObject :=
  match obj.kind with
  | .deployment => { obj with template := some (merge obj.template r) }
  | .daemonSet => { obj with template := some (merge obj.template r) }
  | .replicaSet => { obj with template := some (merge obj.template r) }
  | .statefulSet => { obj with template := some (merge obj.template r) }
  | .job => { obj with template := some (merge obj.template r) }
  | .replicationController => { obj with template := some (merge obj.template r) }
  | .other => obj

/-- The object-level transform of a successfully decoded object with
accessible annotation set `anns`: merge the top-level annotation set and
apply the workload-kind template merge. -/
def polluteObj (obj : KubeObject) (anns : Option Annots) (r : Renderable) : KubeObject :=
  polluteKind { obj with meta := some (some (merge anns r)) } r

/-- `pollute` from `pollute.go` lines 77–128: decode, merge annotations,
type-switch on workload kinds, re-encode; every failure path returns the
original resource text unchanged. -/
def pollute (decode : String → Option KubeObject)
    (encode : KubeObject → Option String)
    (resource : String) (r : Renderable) : String :=
  match decode resource with
  | none => resource
  | some obj =>
    match obj.meta with
    | none => resource
    | some anns =>
      match encode (polluteObj obj anns r) with
      | none => resource
      | some out => out

/-! ## Annotation-map lemmas -/

theorem lookupA_setA_self (m : Annots) (k v : String) :
    lookupA (setA m k v) k = some v := by
  induction m with
  | nil => simp [setA, lookupA]
  | cons p rest ih =>
    obtain ⟨k', v'⟩ := p
    by_cases h : k' = k
    · simp [setA, lookupA, h]
    · simp [setA, lookupA, h, ih]

theorem lookupA_setA_ne (m : Annots) (k k' v : String) (h : k' ≠ k) :
    lookupA (setA m k v) k' = lookupA m k' := by
  induction m with
  | nil => simp [setA, lookupA, Ne.symm h]
  | cons p rest ih =>
    obtain ⟨k₀, v₀⟩ := p
    by_cases h₀ : k₀ = k
    · subst h₀
      simp [setA, lookupA, Ne.symm h]
    · simp only [setA, if_neg h₀, lookupA]
      by_cases h₁ : k₀ = k'
      · simp [h₁]
      · simp [h₁, ih]

theorem setA_eq_of_lookupA (m : Annots) (k v : String)
    (h : lookupA m k = some v) : setA m k v = m := by
  induction m with
  | nil => simp [lookupA] at h
  | cons p rest ih =>
    obtain ⟨k₀, v₀⟩ := p
    by_cases h₀ : k₀ = k
    · subst h₀
      simp [lookupA] at h
      simp [setA, h]
    · simp only [lookupA, if_neg h₀] at h
      simp [setA, h₀, ih h]

/-! ## What `merge` writes -/

theorem lookupA_merge_pathKey (origin : Option Annots) (r : Renderable) :
    lookupA (merge origin r) defaultPathKey = some r.path := by
  cases hrel : r.release with
  | none => simp [merge, hrel, lookupA_setA_self]
  | some rel =>
    cases hns : rel.nspace <;> cases hnm : rel.name <;> cases hrv : rel.revision <;>
      simp [merge, hrel, hns, hnm, hrv, lookupA_setA_self, lookupA_setA_ne,
        show defaultPathKey ≠ defaultNamespaceKey by decide,
        show defaultPathKey ≠ defaultReleaseKey by decide,
        show defaultPathKey ≠ defaultRevisionKey by decide]

theorem lookupA_merge_nsKey (origin : Option Annots) (r : Renderable)
    (rel : ReleaseVals) (hrel : r.release = some rel) (v : String)
    (hns : rel.nspace = some v) :
    lookupA (merge origin r) defaultNamespaceKey = some v := by
  cases hnm : rel.name <;> cases hrv : rel.revision <;>
    simp [merge, hrel, hns, hnm, hrv, lookupA_setA_self, lookupA_setA_ne,
      show defaultNamespaceKey ≠ defaultReleaseKey by decide,
      show defaultNamespaceKey ≠ defaultRevisionKey by decide]

theorem lookupA_merge_nameKey (origin : Option Annots) (r : Renderable)
    (rel : ReleaseVals) (hrel : r.release = some rel) (v : String)
    (hnm : rel.name = some v) :
    lookupA (merge origin r) defaultReleaseKey = some v := by
  cases hrv : rel.revision <;>
    simp [merge, hrel, hnm, hrv, lookupA_setA_self, lookupA_setA_ne,
      show defaultReleaseKey ≠ defaultRevisionKey by decide]

theorem lookupA_merge_revKey (origin : Option Annots) (r : Renderable)
    (rel : ReleaseVals) (hrel : r.release = some rel) (v : String)
    (hrv : rel.revision = some v) :
    lookupA (merge origin r) defaultRevisionKey = some v := by
  simp [merge, hrel, hrv, lookupA_setA_self]

/-- If an annotation set already holds every value the context would
write, `merge` returns it unchanged. -/
theorem merge_of_lookups (m : Annots) (r : Renderable)
    (h1 : lookupA m defaultPathKey = some r.path)
    (h2 : ∀ rel, r.release = some rel → ∀ v, rel.nspace = some v →
      lookupA m defaultNamespaceKey = some v)
    (h3 : ∀ rel, r.release = some rel → ∀ v, rel.name = some v →
      lookupA m defaultReleaseKey = some v)
    (h4 : ∀ rel, r.release = some rel → ∀ v, rel.revision = some v →
      lookupA m defaultRevisionKey = some v) :
    merge (some m) r = m := by
  cases hrel : r.release with
  | none =>
    simp only [merge, hrel]
    exact setA_eq_of_lookupA _ _ _ h1
  | some rel =>
    cases hns : rel.nspace <;> cases hnm : rel.name <;> cases hrv : rel.revision <;>
      simp only [merge, hrel, hns, hnm, hrv] <;>
      rw [setA_eq_of_lookupA _ _ _ h1] <;>
      first
        | rfl
        | (try rw [setA_eq_of_lookupA _ _ _ (h2 rel hrel _ hns)]) <;>
          (try rw [setA_eq_of_lookupA _ _ _ (h3 rel hrel _ hnm)]) <;>
          (try rw [setA_eq_of_lookupA _ _ _ (h4 rel hrel _ hrv)])

/-- Merging the same context twice is the same as merging it once. -/
theorem merge_merge (origin : Option Annots) (r : Renderable) :
    merge (some (merge origin r)) r = merge origin r := by
  refine merge_of_lookups _ r (lookupA_merge_pathKey origin r) ?_ ?_ ?_
  · intro rel hrel v hns
    exact lookupA_merge_nsKey origin r rel hrel v hns
  · intro rel hrel v hnm
    exact lookupA_merge_nameKey origin r rel hrel v hnm
  · intro rel hrel v hrv
    exact lookupA_merge_revKey origin r rel hrel v hrv

/-! ## Claim C5: the four provenance annotations -/

/-- A rendering context whose values carry no `Release` map. -/
def bareRenderable : Renderable := { path := "charts/app", release := none }

/-- C5, as stated, is false: `merge` writes the chart-path annotation
unconditionally, but the namespace, release-name and revision annotations
only when the context's values contain them (`pollute.go` lines 137–153
return early or skip the missing entries).  With no `Release` map in the
context, three of the four keys are absent from the merged set. -/
theorem claim_C5_counterexample :
    lookupA (merge (some []) bareRenderable) defaultPathKey = some "charts/app" ∧
      lookupA (merge (some []) bareRenderable) defaultNamespaceKey = none ∧
      lookupA (merge (some []) bareRenderable) defaultReleaseKey = none ∧
      lookupA (merge (some []) bareRenderable) defaultRevisionKey = none := by
  decide

/-- C5 (amended): for every annotation set (or absent set) and every
rendering context whose values do contain `Release.Namespace`,
`Release.Name` and `Release.Revision`, `merge` writes all four annotation
keys with the context's values, creating the set if absent and
unconditionally overwriting existing values of those keys. -/
theorem claim_C5 (origin : Option Annots) (r : Renderable) (rel : ReleaseVals)
    (hrel : r.release = some rel)
    (nsv nv rv : String)
    (hns : rel.nspace = some nsv) (hnm : rel.name = some nv)
    (hrv : rel.revision = some rv) :
    lookupA (merge origin r) defaultPathKey = some r.path ∧
      lookupA (merge origin r) defaultNamespaceKey = some nsv ∧
      lookupA (merge origin r) defaultReleaseKey = some nv ∧
      lookupA (merge origin r) defaultRevisionKey = some rv :=
  ⟨lookupA_merge_pathKey origin r,
   lookupA_merge_nsKey origin r rel hrel nsv hns,
   lookupA_merge_nameKey origin r rel hrel nv hnm,
   lookupA_merge_revKey origin r rel hrel rv hrv⟩

/-- A rendering context with all three `Release` entries present, and a
pre-existing annotation set holding stale values for all four keys. -/
def fullRenderable : Renderable :=
  { path := "charts/app",
    release := some { nspace := some "prod", name := some "app", revision := some "4" } }

theorem claim_C5_witness :
    lookupA (merge (some [(defaultPathKey, "old"), (defaultNamespaceKey, "old"),
        (defaultReleaseKey, "old"), (defaultRevisionKey, "old")]) fullRenderable)
        defaultPathKey = some "charts/app" ∧
      lookupA (merge (some [(defaultPathKey, "old"), (defaultNamespaceKey, "old"),
        (defaultReleaseKey, "old"), (defaultRevisionKey, "old")]) fullRenderable)
        defaultNamespaceKey = some "prod" ∧
      lookupA (merge (some [(defaultPathKey, "old"), (defaultNamespaceKey, "old"),
        (defaultReleaseKey, "old"), (defaultRevisionKey, "old")]) fullRenderable)
        defaultReleaseKey = some "app" ∧
      lookupA (merge (some [(defaultPathKey, "old"), (defaultNamespaceKey, "old"),
        (defaultReleaseKey, "old"), (defaultRevisionKey, "old")]) fullRenderable)
        defaultRevisionKey = some "4" :=
  claim_C5 (some [(defaultPathKey, "old"), (defaultNamespaceKey, "old"),
    (defaultReleaseKey, "old"), (defaultRevisionKey, "old")])
    fullRenderable { nspace := some "prod", name := some "app", revision := some "4" }
    rfl "prod" "app" "4" rfl rfl rfl

/-! ## Claims C6 and C7: injector idempotence and failure tolerance -/

theorem polluteKind_kind (obj : KubeObject) (r : Renderable) :
    (polluteKind obj r).kind = obj.kind := by
  cases h : obj.kind <;> simp [polluteKind, h]

theorem polluteKind_meta (obj : KubeObject) (r : Renderable) :
    (polluteKind obj r).meta = obj.meta := by
  cases h : obj.kind <;> simp [polluteKind, h]

theorem polluteKind_polluteKind (obj : KubeObject) (r : Renderable) :
    polluteKind (polluteKind obj r) r = polluteKind obj r := by
  cases h : obj.kind <;> simp [polluteKind, h, merge_merge]

theorem polluteObj_meta (obj : KubeObject) (anns : Option Annots) (r : Renderable) :
    (polluteObj obj anns r).meta = some (some (merge anns r)) := by
  rw [polluteObj, polluteKind_meta]

/-- Re-polluting an already polluted object with the same context changes
nothing. -/
theorem polluteObj_polluteObj (obj : KubeObject) (anns : Option Annots)
    (r : Renderable) :
    polluteObj (polluteObj obj anns r) (some (merge anns r)) r
      = polluteObj obj anns r := by
  have hmeta : { polluteObj obj anns r with
      meta := some (some (merge (some (merge anns r)) r)) }
      = polluteObj obj anns r := by
    rw [merge_merge]
    have := polluteObj_meta obj anns r
    cases hobj : polluteObj obj anns r
    simp only at this ⊢
    rw [hobj] at this
    simp only at this
    rw [this]
  show polluteKind { polluteObj obj anns r with
      meta := some (some (merge (some (merge anns r)) r)) } r
      = polluteObj obj anns r
  rw [hmeta]
  rw [polluteObj]
  exact polluteKind_polluteKind _ r

/-- C6: the provenance injector is idempotent.  For every codec pair that
round-trips (decoding an encoded object yields that object — the contract
of the serializer collaborator), every manifest and every rendering
context, applying `pollute` twice with the same context equals applying
it once (hence in particular the results are annotation-equivalent). -/
theorem claim_C6 (decode : String → Option KubeObject)
    (encode : KubeObject → Option String) (resource : String) (r : Renderable)
    (hrt : ∀ o s, encode o = some s → decode s = some o) :
    pollute decode encode (pollute decode encode resource r) r
      = pollute decode encode resource r := by
  cases hdec : decode resource with
  | none => simp [pollute, hdec]
  | some obj =>
    cases hmeta : obj.meta with
    | none => simp [pollute, hdec, hmeta]
    | some anns =>
      cases henc : encode (polluteObj obj anns r) with
      | none => simp [pollute, hdec, hmeta, henc]
      | some out =>
        have h1 : pollute decode encode resource r = out := by
          simp [pollute, hdec, hmeta, henc]
        rw [h1]
        have hdec2 : decode out = some (polluteObj obj anns r) :=
          hrt _ _ henc
        have hmeta2 := polluteObj_meta obj anns r
        have henc2 : encode (polluteObj (polluteObj obj anns r)
            (some (merge anns r)) r) = some out := by
          rw [polluteObj_polluteObj]
          exact henc
        simp [pollute, hdec2, hmeta2, henc2]

/-- The context used by the injector witnesses. -/
def rWit : Renderable :=
  { path := "charts/app",
    release := some { nspace := some "ns", name := some "app", revision := some "4" } }

/-- A decodable object for the injector witnesses. -/
def objA : KubeObject :=
  { kind := .deployment, meta := some (some []), template := none }

/-- `objA` after one application of the injector's object transform. -/
def objB : KubeObject := polluteObj objA (some []) rWit

/-- A two-point codec that round-trips: `"A"` encodes `objA` and `"B"`
encodes `objB`. -/
def decodeWit (s : String) : Option KubeObject :=
  if s = "A" then some objA else if s = "B" then some objB else none

def encodeWit (o : KubeObject) : Option String :=
  if o = objA then some "A" else if o = objB then some "B" else none

theorem encodeWit_roundtrip : ∀ o s, encodeWit o = some s → decodeWit s = some o := by
  intro o s h
  simp only [encodeWit] at h
  by_cases h1 : o = objA
  · rw [if_pos h1] at h
    have hs : s = "A" := by
      have := Option.some.inj h
      exact this.symm
    subst hs
    simp [decodeWit, h1]
  · rw [if_neg h1] at h
    by_cases h2 : o = objB
    · rw [if_pos h2] at h
      have hs : s = "B" := (Option.some.inj h).symm
      subst hs
      have hne : ¬ ("B" : String) = "A" := by decide
      simp [decodeWit, hne, h2]
    · rw [if_neg h2] at h
      exact absurd h (by simp)

theorem claim_C6_witness :
    pollute decodeWit encodeWit (pollute decodeWit encodeWit "A" rWit) rWit
      = pollute decodeWit encodeWit "A" rWit :=
  claim_C6 decodeWit encodeWit "A" rWit encodeWit_roundtrip

/-- C7: the injector is strictly best-effort.  Whenever decoding fails,
the annotation accessor fails, or re-encoding the transformed object
fails, `pollute` returns exactly the original input string (and its type
has no error channel at all). -/
theorem claim_C7 (decode : String → Option KubeObject)
    (encode : KubeObject → Option String) (resource : String) (r : Renderable)
    (hfail : decode resource = none ∨
      (∃ obj, decode resource = some obj ∧ obj.meta = none) ∨
      (∃ obj anns, decode resource = some obj ∧ obj.meta = some anns ∧
        encode (polluteObj obj anns r) = none)) :
    pollute decode encode resource r = resource := by
  rcases hfail with h | ⟨obj, h1, h2⟩ | ⟨obj, anns, h1, h2, h3⟩
  · simp [pollute, h]
  · simp [pollute, h1, h2]
  · simp [pollute, h1, h2, h3]

theorem claim_C7_witness :
    pollute (fun _ => none) encodeWit "not a manifest" rWit = "not a manifest" :=
  claim_C7 (fun _ => none) encodeWit "not a manifest" rWit (Or.inl rfl)

/-! ## The update orchestrator (tiller `UpdateRelease` / `prepareUpdate` /
`performUpdate`)

External collaborators (value reuse, cluster capabilities, render values,
renderer, validator, hook runner, execution module) are embedded as an
`Ext` record of their observable outcomes for the one update under
consideration; the clock (`timeconv.Now()`) is the `ts` parameter.  The
orchestrator threads an explicit state holding the release store plus a
log of driver calls and hook executions, so "no storage call happens" and
"no hook runs" are provable statements. -/

/-- `services.UpdateReleaseRequest`, fields read by the update path. -/
structure UpdateReleaseRequest where
  name : String
  chart : Option String
  values : Option String
  dryRun : Bool
  disableHooks : Bool
  timeout : Int
  annotations : List (String × String)
deriving DecidableEq, Repr

/-- Domain errors of the update path (`errMissingRelease`,
`errMissingChart`, collaborator failures carrying the Go error text, and
the driver errors). -/
inductive Err
  | missingRelease
  | missingChart
  | noRevision (name : String)
  | reuseValuesFailed
  | capabilitiesFailed
  | renderValuesFailed
  | renderFailed
  | validateFailed (msg : String)
  | hookFailed (msg : String)
  | applyFailed (msg : String)
  | alreadyExists (k : String)
  | notFound (k : String)
deriving DecidableEq, Repr

/-- Observable side effects: storage driver calls and hook executions. -/
inductive Event
  | driverQuery (nspace name : String)
  | driverCreate (k : String)
  | driverUpdate (k : String)
  | hookRun (tag : String)
deriving DecidableEq, Repr

/-- Orchestrator-visible state: the release store plus the event log. -/
structure OrchState where
  store : Store
  events : List Event
deriving DecidableEq

def logEvent (s : OrchState) (e : Event) : OrchState :=
  { s with events := s.events ++ [e] }

/-- Outcomes of the external collaborators for one update run. -/
structure Ext where
  reuseVals : Option (Option String)
  capabilities : Option String
  renderVals : Option String
  renderRes : Option (List String × String × String)
  validateRes : Option String
  preHookRes : Option String
  applyRes : Option String
  postHookRes : Option String
deriving DecidableEq, Repr

/-- `Storage.Create` called by the orchestrator: key derivation, then the
driver call, recorded in the event log. -/
def storageCreateEv (rls : Release) (s : OrchState) : Option Err × OrchState :=
  let p := keyForRelease rls
  let k := makeKey p.1 p.2.version
  let s := logEvent s (.driverCreate k)
  match driverCreate s.store k p.2 with
  | none => (some (.alreadyExists k), s)
  | some st => (none, { s with store := st })

/-- `Storage.Update` called by the orchestrator. -/
def storageUpdateEv (rls : Release) (s : OrchState) : Option Err × OrchState :=
  let p := keyForRelease rls
  let k := makeKey p.1 p.2.version
  let s := logEvent s (.driverUpdate k)
  match driverUpdate s.store k p.2 with
  | none => (some (.notFound k), s)
  | some st => (none, { s with store := st })

/-- Modelled from the spec: `recordRelease` is referenced by
`performUpdate` but its body is not under `src/`.  Per §4.4 it persists a
release best-effort — reuse updates the existing record, otherwise a new
record is created — and the call sites discard its outcome (`s.recordRelease(...)`
is a bare statement), so a persistence error cannot propagate from it;
it is only logged. -/
def recordRelease (r : Release) (reuse : Bool) (s : OrchState) : OrchState :=
  if reuse then (storageUpdateEv r s).2 else (storageCreateEv r s).2

/-- Modelled from the spec: the hook runner collaborator
(`ExecHook(hooks, name, namespace, hookType, timeout) -> error`, §6); its
outcome for this run comes from `Ext` and its invocation is logged. -/
def execHook (outcome : Option String) (tag : String) (s : OrchState) :
    Option String × OrchState :=
  (outcome, logEvent s (.hookRun tag))

/-- Go `fmt.Sprintf("%q", name)` for names without escape-needing
characters. -/
def quoteGo (s : String) : String := "\"" ++ s ++ "\""

/-- Go assignment `r.Info.Status.Code = c`. -/
def setStatus (r : Release) (c : StatusCode) : Release :=
  { r with info := { r.info with status := c } }

/-- Go assignment `r.Info.Description = d`. -/
def setDescription (r : Release) (d : String) : Release :=
  { r with info := { r.info with description := d } }

/-- Construction of the new release record (orchestrator source lines
76–123): revision `current.Version + 1`, status `UNKNOWN`, description
`"Preparing upgrade"`, `FirstDeployed` carried forward, `LastDeployed`
set to now, and notes attached when the renderer produced any. -/
def buildUpdatedRelease (currentRelease : Release) (req : UpdateReleaseRequest)
    (ts : Int) (hks : List String) (manifestDoc notesTxt : String) : Release :=
  let updatedRelease : Release := {
    name := currentRelease.name,
    nspace := currentRelease.nspace,
    chart := req.chart,
    config := req.values,
    info := {
      firstDeployed := currentRelease.info.firstDeployed,
      lastDeployed := ts,
      status := .unknown,
      description := "Preparing upgrade",
      notes := "" },
    version := currentRelease.version + 1,
    manifest := manifestDoc,
    hooks := hks,
    annotations := req.annotations }
  if notesTxt.length > 0 then
    { updatedRelease with
      info := { updatedRelease.info with notes := notesTxt } }
  else updatedRelease

/-- `prepareUpdate` from the orchestrator source lines 56–126: validate
the request name and chart, fetch the current release via `Last`, reuse
values, query capabilities, build render values, render, build the new
release record, then validate the manifest.  The accepted release-name
pattern (`ValidName`) is not under `src/` and is passed as a predicate
parameter. -/
def prepareUpdate (validName : String → Bool) (ext : Ext) (ts : Int)
    (req : UpdateReleaseRequest) (s0 : OrchState) :
    Except Err (Release × Release × UpdateReleaseRequest) × OrchState :=
  if validName req.name = false then (.error .missingRelease, s0)
  else match req.chart with
  | none => (.error .missingChart, s0)
  | some _ =>
    let p := splitName req.name
    let s1 := logEvent s0 (.driverQuery p.1 p.2)
    match lastRelease s0.store req.name with
    | none => (.error (.noRevision req.name), s1)
    | some currentRelease =>
      match ext.reuseVals with
      | none => (.error .reuseValuesFailed, s1)
      | some vals =>
        let req := { req with values := vals }
        match ext.capabilities with
        | none => (.error .capabilitiesFailed, s1)
        | some _ =>
          match ext.renderVals with
          | none => (.error .renderValuesFailed, s1)
          | some _ =>
            match ext.renderRes with
            | none => (.error .renderFailed, s1)
            | some (hks, manifestDoc, notesTxt) =>
              match ext.validateRes with
              | some m => (.error (.validateFailed m), s1)
              | none =>
                (.ok (currentRelease,
                  buildUpdatedRelease currentRelease req ts hks manifestDoc notesTxt,
                  req), s1)

/-- `performUpdate` from the orchestrator source lines 128–170: dry runs
return with description `"Dry run complete"` and no side effect;
otherwise pre-upgrade hooks run (unless disabled), the execution module's
`Update` is invoked, and on its failure the old release is marked
`SUPERSEDED`, the new one `FAILED` with the wrapped error as description,
both are recorded, and the error is returned; on success post-upgrade
hooks run, the old release is superseded and recorded, and the new
release is marked `DEPLOYED` / `"Upgrade complete"` (persisted later by
`UpdateRelease`). -/
def performUpdate (ext : Ext) (originalRelease updatedRelease : Release)
    (req : UpdateReleaseRequest) (s : OrchState) :
    (Option Err × Release) × OrchState :=
  if req.dryRun then
    let updatedRelease := setDescription updatedRelease "Dry run complete"
    ((none, updatedRelease), s)
  else
    let pre := if req.disableHooks = false then
        execHook ext.preHookRes "pre-upgrade" s
      else (none, s)
    match pre with
    | (some m, s) => ((some (.hookFailed m), updatedRelease), s)
    | (none, s) =>
      match ext.applyRes with
      | some e =>
        let msg := "Upgrade " ++ quoteGo updatedRelease.name ++ " failed: " ++ e
        let originalRelease := setStatus originalRelease .superseded
        let updatedRelease := setStatus updatedRelease .failed
        let updatedRelease := setDescription updatedRelease msg
        let s := recordRelease originalRelease true s
        let s := recordRelease updatedRelease false s
        ((some (.applyFailed e), updatedRelease), s)
      | none =>
        let post := if req.disableHooks = false then
            execHook ext.postHookRes "post-upgrade" s
          else (none, s)
        match post with
        | (some m, s) => ((some (.hookFailed m), updatedRelease), s)
        | (none, s) =>
          let originalRelease := setStatus originalRelease .superseded
          let s := recordRelease originalRelease true s
          let updatedRelease := setStatus updatedRelease .deployed
          let updatedRelease := setDescription updatedRelease "Upgrade complete"
          ((none, updatedRelease), s)

/-- `UpdateRelease` from the orchestrator source lines 32–53: prepare,
perform, and — for non-dry-run successful updates — persist the updated
release with `Releases.Create`.  The first result component is the
response's release (the Go response aliases `updatedRelease`), the second
the returned error. -/
def updateRelease (validName : String → Bool) (ext : Ext) (ts : Int)
    (req : UpdateReleaseRequest) (s0 : OrchState) :
    (Option Release × Option Err) × OrchState :=
  match prepareUpdate validName ext ts req s0 with
  | (.error e, s1) => ((none, some e), s1)
  | (.ok (currentRelease, updatedRelease, req), s1) =>
    match performUpdate ext currentRelease updatedRelease req s1 with
    | ((some e, upd), s2) => ((some upd, some e), s2)
    | ((none, upd), s2) =>
      if req.dryRun = false then
        match storageCreateEv upd s2 with
        | (some e, s3) => ((some upd, some e), s3)
        | (none, s3) => ((some upd, none), s3)
      else ((some upd, none), s2)

/-! ## Driver-store lemmas -/

theorem keyForRelease_no_slash (r : Release) (h : '/' ∉ r.name.data) :
    keyForRelease r = (key r.nspace r.name, r) := by
  simp [keyForRelease, splitName_of_no_slash _ h]

theorem driverUpdate_hasKey (k : String) (r : Release) :
    ∀ st : List (String × Release), Store.hasKey st k = true →
      ∃ st', driverUpdate st k r = some st' := by
  intro st
  induction st with
  | nil => intro h; simp [Store.hasKey] at h
  | cons p rest ih =>
    intro h
    obtain ⟨k', r'⟩ := p
    by_cases hk : k' = k
    · exact ⟨(k, r) :: rest, by simp [driverUpdate, hk]⟩
    · have hrest : Store.hasKey rest k = true := by
        simp [Store.hasKey] at h ⊢
        rcases h with h | h
        · exact absurd h hk
        · exact h
      obtain ⟨st', hst'⟩ := ih hrest
      exact ⟨(k', r') :: st', by simp [driverUpdate, hk, hst']⟩

theorem driverUpdate_none (k : String) (r : Release) :
    ∀ st : List (String × Release), driverUpdate st k r = none →
      Store.hasKey st k = false := by
  intro st
  induction st with
  | nil => intro _; simp [Store.hasKey]
  | cons p rest ih =>
    intro h
    obtain ⟨k', r'⟩ := p
    by_cases hk : k' = k
    · simp [driverUpdate, hk] at h
    · simp only [driverUpdate, if_neg hk, Option.map_eq_none'] at h
      simp [Store.hasKey, hk]
      have := ih h
      simp [Store.hasKey] at this
      exact this

theorem lookupStore_driverUpdate_self (k : String) (r : Release) :
    ∀ (st st' : List (String × Release)), driverUpdate st k r = some st' →
      lookupStore st' k = some r := by
  intro st
  induction st with
  | nil => intro st' h; simp [driverUpdate] at h
  | cons p rest ih =>
    intro st' h
    obtain ⟨k', r'⟩ := p
    by_cases hk : k' = k
    · simp only [driverUpdate, if_pos hk, Option.some.injEq] at h
      subst h
      simp [lookupStore]
    · simp only [driverUpdate, if_neg hk, Option.map_eq_some'] at h
      obtain ⟨a, ha, rfl⟩ := h
      simp only [lookupStore, if_neg hk]
      exact ih a ha

theorem lookupStore_driverUpdate_ne (k : String) (r : Release) (k₁ : String)
    (hne : k₁ ≠ k) :
    ∀ (st st' : List (String × Release)), driverUpdate st k r = some st' →
      lookupStore st' k₁ = lookupStore st k₁ := by
  intro st
  induction st with
  | nil => intro st' h; simp [driverUpdate] at h
  | cons p rest ih =>
    intro st' h
    obtain ⟨k', r'⟩ := p
    by_cases hk : k' = k
    · simp only [driverUpdate, if_pos hk, Option.some.injEq] at h
      subst h
      subst hk
      simp [lookupStore, Ne.symm hne, hne]
    · simp only [driverUpdate, if_neg hk, Option.map_eq_some'] at h
      obtain ⟨a, ha, rfl⟩ := h
      by_cases hk1 : k' = k₁
      · simp [lookupStore, hk1]
      · simp only [lookupStore, if_neg hk1]
        exact ih a ha

theorem driverUpdate_map_fst (k : String) (r : Release) :
    ∀ (st st' : List (String × Release)), driverUpdate st k r = some st' →
      st'.map Prod.fst = st.map Prod.fst := by
  intro st
  induction st with
  | nil => intro st' h; simp [driverUpdate] at h
  | cons p rest ih =>
    intro st' h
    obtain ⟨k', r'⟩ := p
    by_cases hk : k' = k
    · simp only [driverUpdate, if_pos hk, Option.some.injEq] at h
      subst h
      simp [hk]
    · simp only [driverUpdate, if_neg hk, Option.map_eq_some'] at h
      obtain ⟨a, ha, rfl⟩ := h
      simp [ih a ha]

theorem mem_driverUpdate (k : String) (r : Release) :
    ∀ (st st' : List (String × Release)), driverUpdate st k r = some st' →
      ∀ p ∈ st', p = (k, r) ∨ p ∈ st := by
  intro st
  induction st with
  | nil => intro st' h; simp [driverUpdate] at h
  | cons q rest ih =>
    intro st' h p hp
    obtain ⟨k', r'⟩ := q
    by_cases hk : k' = k
    · simp only [driverUpdate, if_pos hk, Option.some.injEq] at h
      subst h
      rcases List.mem_cons.mp hp with rfl | hp
      · exact Or.inl rfl
      · exact Or.inr (List.mem_cons_of_mem _ hp)
    · simp only [driverUpdate, if_neg hk, Option.map_eq_some'] at h
      obtain ⟨a, ha, rfl⟩ := h
      rcases List.mem_cons.mp hp with rfl | hp
      · exact Or.inr (List.mem_cons_self _ _)
      · rcases ih a ha p hp with h1 | h1
        · exact Or.inl h1
        · exact Or.inr (List.mem_cons_of_mem _ h1)

theorem lookupStore_mem (k : String) :
    ∀ (st : List (String × Release)) (r : Release),
      lookupStore st k = some r → (k, r) ∈ st := by
  intro st
  induction st with
  | nil => intro r h; simp [lookupStore] at h
  | cons q rest ih =>
    intro r h
    obtain ⟨k', r'⟩ := q
    by_cases hk : k' = k
    · simp only [lookupStore, if_pos hk, Option.some.injEq] at h
      subst hk; subst h
      exact List.mem_cons_self _ _
    · simp only [lookupStore, if_neg hk] at h
      exact List.mem_cons_of_mem _ (ih r h)

theorem nodup_key_eq (l : List (String × Release))
    (hnd : (l.map Prod.fst).Nodup) {k : String} {a b : Release}
    (ha : (k, a) ∈ l) (hb : (k, b) ∈ l) : a = b := by
  induction l with
  | nil => simp at ha
  | cons q rest ih =>
    simp only [List.map_cons, List.nodup_cons] at hnd
    rcases List.mem_cons.mp ha with rfl | ha' <;>
      rcases List.mem_cons.mp hb with hqb | hb'
    · exact (Prod.mk.injEq _ _ _ _).mp hqb.symm |>.2
    · exfalso
      exact hnd.1 (List.mem_map.mpr ⟨(k, b), hb', rfl⟩)
    · exfalso
      rcases hqb with rfl
      exact hnd.1 (List.mem_map.mpr ⟨(k, a), ha', rfl⟩)
    · exact ih hnd.2 ha' hb'

theorem driverCreate_not_hasKey (st : Store) (k : String) (r : Release)
    (h : Store.hasKey st k = false) :
    driverCreate st k r = some ((k, r) :: (st : List (String × Release))) := by
  simp [driverCreate, h]

/-! ## Orchestrator-level helper lemmas -/

def Event.isHookRun : Event → Bool
  | .hookRun _ => true
  | _ => false

def Event.isWrite : Event → Bool
  | .driverCreate _ => true
  | .driverUpdate _ => true
  | _ => false

/-- Store effect of a best-effort `Storage.Update` (errors swallowed). -/
def updateStoreBE (r : Release) (st : Store) : Store :=
  match (storageUpdate st r).1 with
  | some st' => st'
  | none => st

/-- Store effect of a best-effort `Storage.Create` (errors swallowed). -/
def createStoreBE (r : Release) (st : Store) : Store :=
  match (storageCreate st r).1 with
  | some st' => st'
  | none => st

theorem recordRelease_true_store (r : Release) (s : OrchState) :
    (recordRelease r true s).store = updateStoreBE r s.store := by
  simp only [recordRelease, if_pos, storageUpdateEv, updateStoreBE, storageUpdate,
    logEvent]
  cases h : driverUpdate s.store (makeKey (keyForRelease r).1 (keyForRelease r).2.version)
      (keyForRelease r).2 <;> simp [h]

theorem recordRelease_false_store (r : Release) (s : OrchState) :
    (recordRelease r false s).store = createStoreBE r s.store := by
  simp only [recordRelease, Bool.false_eq_true, if_false, storageCreateEv,
    createStoreBE, storageCreate, logEvent]
  cases h : driverCreate s.store (makeKey (keyForRelease r).1 (keyForRelease r).2.version)
      (keyForRelease r).2 <;> simp [h]

theorem recordRelease_true_events (r : Release) (s : OrchState) :
    (recordRelease r true s).events
      = s.events ++ [.driverUpdate (makeKey (keyForRelease r).1 (keyForRelease r).2.version)] := by
  simp only [recordRelease, if_pos, storageUpdateEv, logEvent]
  cases h : driverUpdate s.store (makeKey (keyForRelease r).1 (keyForRelease r).2.version)
      (keyForRelease r).2 <;> simp [h]

theorem recordRelease_false_events (r : Release) (s : OrchState) :
    (recordRelease r false s).events
      = s.events ++ [.driverCreate (makeKey (keyForRelease r).1 (keyForRelease r).2.version)] := by
  simp only [recordRelease, Bool.false_eq_true, if_false, storageCreateEv, logEvent]
  cases h : driverCreate s.store (makeKey (keyForRelease r).1 (keyForRelease r).2.version)
      (keyForRelease r).2 <;> simp [h]

theorem buildUpdated_name (cur : Release) (req : UpdateReleaseRequest) (ts : Int)
    (hks : List String) (doc notes : String) :
    (buildUpdatedRelease cur req ts hks doc notes).name = cur.name := by
  by_cases h : notes.length > 0 <;> simp [buildUpdatedRelease, h]

theorem buildUpdated_nspace (cur : Release) (req : UpdateReleaseRequest) (ts : Int)
    (hks : List String) (doc notes : String) :
    (buildUpdatedRelease cur req ts hks doc notes).nspace = cur.nspace := by
  by_cases h : notes.length > 0 <;> simp [buildUpdatedRelease, h]

theorem buildUpdated_version (cur : Release) (req : UpdateReleaseRequest) (ts : Int)
    (hks : List String) (doc notes : String) :
    (buildUpdatedRelease cur req ts hks doc notes).version = cur.version + 1 := by
  by_cases h : notes.length > 0 <;> simp [buildUpdatedRelease, h]

theorem buildUpdated_status (cur : Release) (req : UpdateReleaseRequest) (ts : Int)
    (hks : List String) (doc notes : String) :
    (buildUpdatedRelease cur req ts hks doc notes).info.status = .unknown := by
  by_cases h : notes.length > 0 <;> simp [buildUpdatedRelease, h]

theorem buildUpdated_description (cur : Release) (req : UpdateReleaseRequest) (ts : Int)
    (hks : List String) (doc notes : String) :
    (buildUpdatedRelease cur req ts hks doc notes).info.description = "Preparing upgrade" := by
  by_cases h : notes.length > 0 <;> simp [buildUpdatedRelease, h]

/-- Successful preparation, fully reduced. -/
theorem prepareUpdate_ok (validName : String → Bool) (ext : Ext) (ts : Int)
    (req : UpdateReleaseRequest) (s0 : OrchState)
    (ch : String) (cur : Release) (vals : Option String) (cap rvs : String)
    (hks : List String) (doc notes : String)
    (hvn : validName req.name = true)
    (hch : req.chart = some ch)
    (hlast : lastRelease s0.store req.name = some cur)
    (hreuse : ext.reuseVals = some vals)
    (hcaps : ext.capabilities = some cap)
    (hrvals : ext.renderVals = some rvs)
    (hrender : ext.renderRes = some (hks, doc, notes))
    (hval : ext.validateRes = none) :
    prepareUpdate validName ext ts req s0 =
      (.ok (cur, buildUpdatedRelease cur { req with values := vals } ts hks doc notes,
        { req with values := vals }),
       logEvent s0 (.driverQuery (splitName req.name).1 (splitName req.name).2)) := by
  simp [prepareUpdate, hvn, hch, hlast, hreuse, hcaps, hrvals, hrender, hval]

/-- Preparation never writes to the store. -/
theorem prepareUpdate_store (validName : String → Bool) (ext : Ext) (ts : Int)
    (req : UpdateReleaseRequest) (s0 : OrchState) :
    (prepareUpdate validName ext ts req s0).2.store = s0.store := by
  unfold prepareUpdate
  by_cases h1 : validName req.name = false
  · simp [h1]
  · simp only [h1, if_false]
    cases req.chart
    · rfl
    · cases lastRelease s0.store req.name
      · rfl
      · cases ext.reuseVals
        · rfl
        · cases ext.capabilities
          · rfl
          · cases ext.renderVals
            · rfl
            · rcases ext.renderRes with _ | ⟨hks, doc, notes⟩
              · rfl
              · cases ext.validateRes <;> rfl

/-- Dry-run reduction of `performUpdate`. -/
theorem performUpdate_dryRun (ext : Ext) (old upd : Release)
    (req : UpdateReleaseRequest) (s : OrchState) (h : req.dryRun = true) :
    performUpdate ext old upd req s
      = ((none, setDescription upd "Dry run complete"), s) := by
  simp [performUpdate, h]

/-- Pre-upgrade hook failure reduction of `performUpdate`. -/
theorem performUpdate_preHookFail (ext : Ext) (old upd : Release)
    (req : UpdateReleaseRequest) (s : OrchState) (m : String)
    (hdry : req.dryRun = false) (hdh : req.disableHooks = false)
    (hpre : ext.preHookRes = some m) :
    performUpdate ext old upd req s
      = ((some (.hookFailed m), upd), logEvent s (.hookRun "pre-upgrade")) := by
  simp [performUpdate, hdry, hdh, hpre, execHook]

/-- Post-upgrade hook failure reduction of `performUpdate`. -/
theorem performUpdate_postHookFail (ext : Ext) (old upd : Release)
    (req : UpdateReleaseRequest) (s : OrchState) (m : String)
    (hdry : req.dryRun = false) (hdh : req.disableHooks = false)
    (hpre : ext.preHookRes = none) (happ : ext.applyRes = none)
    (hpost : ext.postHookRes = some m) :
    performUpdate ext old upd req s
      = ((some (.hookFailed m), upd),
         logEvent (logEvent s (.hookRun "pre-upgrade")) (.hookRun "post-upgrade")) := by
  simp [performUpdate, hdry, hdh, hpre, happ, hpost, execHook]

/-- Apply-failure reduction of `performUpdate` (pre-hooks succeeded or
were disabled). -/
theorem performUpdate_applyFail (ext : Ext) (old upd : Release)
    (req : UpdateReleaseRequest) (s : OrchState) (e : String)
    (hdry : req.dryRun = false)
    (hpre : req.disableHooks = true ∨ ext.preHookRes = none)
    (happ : ext.applyRes = some e) :
    performUpdate ext old upd req s
      = ((some (.applyFailed e),
          setDescription (setStatus upd .failed)
            ("Upgrade " ++ quoteGo upd.name ++ " failed: " ++ e)),
         recordRelease
           (setDescription (setStatus upd .failed)
             ("Upgrade " ++ quoteGo upd.name ++ " failed: " ++ e)) false
           (recordRelease (setStatus old .superseded) true
             (if req.disableHooks = false then
                logEvent s (.hookRun "pre-upgrade")
              else s))) := by
  cases hdh : req.disableHooks with
  | true => simp [performUpdate, hdry, hdh, happ]
  | false =>
    have hp : ext.preHookRes = none := by
      rcases hpre with h | h
      · rw [hdh] at h; cases h
      · exact h
    simp [performUpdate, hdry, hdh, hp, happ, execHook]

/-- Fully successful reduction of `performUpdate`. -/
theorem performUpdate_success (ext : Ext) (old upd : Release)
    (req : UpdateReleaseRequest) (s : OrchState)
    (hdry : req.dryRun = false)
    (hpre : req.disableHooks = true ∨ ext.preHookRes = none)
    (happ : ext.applyRes = none)
    (hpost : req.disableHooks = true ∨ ext.postHookRes = none) :
    performUpdate ext old upd req s
      = ((none, setDescription (setStatus upd .deployed) "Upgrade complete"),
         recordRelease (setStatus old .superseded) true
           (if req.disableHooks = false then
              logEvent (logEvent s (.hookRun "pre-upgrade")) (.hookRun "post-upgrade")
            else s)) := by
  cases hdh : req.disableHooks with
  | true => simp [performUpdate, hdry, hdh, happ]
  | false =>
    have hp : ext.preHookRes = none := by
      rcases hpre with h | h
      · rw [hdh] at h; cases h
      · exact h
    have hq : ext.postHookRes = none := by
      rcases hpost with h | h
      · rw [hdh] at h; cases h
      · exact h
    simp [performUpdate, hdry, hdh, hp, happ, hq, execHook]

/-! ## Claim C9: fail-fast validation -/

/-- Modelled from the spec: the accepted release-name pattern
(`ValidName`) is referenced by `prepareUpdate` but its definition is not
under `src/`.  The spec fixes only that names such as `"Invalid Name!"`
are rejected; this predicate accepts alphanumeric names with `-`, `.`
and `_`, which rejects the spec's example. -/
def validNameSpec (s : String) : Bool :=
  !(s = "") && s.data.all (fun c => c.isAlphanum || c = '-' || c = '.' || c = '_')

/-- Request with the spec's invalid example name and no chart. -/
def reqInvalid : UpdateReleaseRequest :=
  { name := "Invalid Name!", chart := none, values := none, dryRun := false,
    disableHooks := false, timeout := 0, annotations := [] }

/-- Unconstrained external outcomes (never consulted on the fail-fast
paths). -/
def extUnused : Ext :=
  { reuseVals := none, capabilities := none, renderVals := none,
    renderRes := none, validateRes := none, preHookRes := none,
    applyRes := none, postHookRes := none }

/-- C9, as stated, is false for requests that are invalid in both ways:
the name check precedes the chart check (orchestrator source lines
57–63), so a request with an invalid name *and* a nil chart fails with
`errMissingRelease`, not `errMissingChart`. -/
theorem claim_C9_counterexample :
    validNameSpec reqInvalid.name = false ∧
      reqInvalid.chart = none ∧
      updateRelease validNameSpec extUnused 0 reqInvalid ⟨[], []⟩
        = ((none, some .missingRelease), ⟨[], []⟩) ∧
      Err.missingRelease ≠ Err.missingChart := by
  refine ⟨by decide, rfl, ?_, by decide⟩
  simp [updateRelease, prepareUpdate, validNameSpec, reqInvalid]

/-- C9 (amended): a request whose name fails the pattern is rejected with
`MissingRelease`, and a request with a valid name but a nil chart is
rejected with `MissingChart`; in both cases no storage driver call is
made and the state — store and event log — is completely unchanged. -/
theorem claim_C9 (validName : String → Bool) (ext : Ext) (ts : Int)
    (req : UpdateReleaseRequest) (s : OrchState) :
    (validName req.name = false →
      updateRelease validName ext ts req s = ((none, some .missingRelease), s)) ∧
    (validName req.name = true → req.chart = none →
      updateRelease validName ext ts req s = ((none, some .missingChart), s)) := by
  constructor
  · intro h
    simp [updateRelease, prepareUpdate, h]
  · intro h1 h2
    simp [updateRelease, prepareUpdate, h1, h2]

/-- Request with a valid name and no chart. -/
def reqNoChart : UpdateReleaseRequest :=
  { name := "app", chart := none, values := none, dryRun := false,
    disableHooks := false, timeout := 0, annotations := [] }

theorem claim_C9_witness :
    updateRelease validNameSpec extUnused 0 reqInvalid ⟨[], []⟩
        = ((none, some .missingRelease), ⟨[], []⟩) ∧
      updateRelease validNameSpec extUnused 0 reqNoChart ⟨[], []⟩
        = ((none, some .missingChart), ⟨[], []⟩) :=
  ⟨(claim_C9 validNameSpec extUnused 0 reqInvalid ⟨[], []⟩).1 (by decide),
   (claim_C9 validNameSpec extUnused 0 reqNoChart ⟨[], []⟩).2 (by decide) rfl⟩

/-! ## Claim C8: dry-run updates persist nothing and run no hooks -/

/-- C8: for every update request with `DryRun = true` that passes
preparation, the store is unchanged (hence so is every release history),
no hook is executed, no error is returned, and the returned release
carries description `"Dry run complete"`. -/
theorem claim_C8 (validName : String → Bool) (ext : Ext) (ts : Int)
    (req : UpdateReleaseRequest) (s0 : OrchState)
    (ch : String) (cur : Release) (vals : Option String) (cap rvs : String)
    (hks : List String) (doc notes : String)
    (hvn : validName req.name = true)
    (hch : req.chart = some ch)
    (hlast : lastRelease s0.store req.name = some cur)
    (hreuse : ext.reuseVals = some vals)
    (hcaps : ext.capabilities = some cap)
    (hrvals : ext.renderVals = some rvs)
    (hrender : ext.renderRes = some (hks, doc, notes))
    (hval : ext.validateRes = none)
    (hdry : req.dryRun = true) :
    (updateRelease validName ext ts req s0).2.store = s0.store ∧
      (updateRelease validName ext ts req s0).2.events.filter Event.isHookRun
        = s0.events.filter Event.isHookRun ∧
      (updateRelease validName ext ts req s0).1.2 = none ∧
      ∃ rel, (updateRelease validName ext ts req s0).1.1 = some rel ∧
        rel.info.description = "Dry run complete" := by
  have hprep := prepareUpdate_ok validName ext ts req s0 ch cur vals cap rvs
    hks doc notes hvn hch hlast hreuse hcaps hrvals hrender hval
  have hdry' : ({ req with values := vals } : UpdateReleaseRequest).dryRun = true := by
    simpa using hdry
  have hperf := performUpdate_dryRun ext cur
    (buildUpdatedRelease cur { req with values := vals } ts hks doc notes)
    { req with values := vals }
    (logEvent s0 (.driverQuery (splitName req.name).1 (splitName req.name).2)) hdry'
  have hmain : updateRelease validName ext ts req s0
      = ((some (setDescription
            (buildUpdatedRelease cur { req with values := vals } ts hks doc notes)
            "Dry run complete"), none),
         logEvent s0 (.driverQuery (splitName req.name).1 (splitName req.name).2)) := by
    simp only [updateRelease, hprep, hperf]
    simp [hdry]
  refine ⟨?_, ?_, ?_, ?_⟩
  · simp [hmain, logEvent]
  · simp [hmain, logEvent, Event.isHookRun]
  · simp [hmain]
  · exact ⟨setDescription
      (buildUpdatedRelease cur { req with values := vals } ts hks doc notes)
      "Dry run complete", by simp [hmain], by simp [setDescription]⟩

/-- A deployed release in the default (empty) namespace, as produced by a
bare release name. -/
def depRelease : Release :=
  { name := "app", nspace := "", version := 3, manifest := "m",
    hooks := [], config := some "cfg", chart := some "c",
    info := { status := .deployed, description := "d", notes := "",
              firstDeployed := 0, lastDeployed := 0 },
    annotations := [] }

/-- Prepared dry-run fixture: a one-release store and a dry-run request. -/
def stWit : OrchState :=
  { store := [(makeKey (key "" "app") 3, depRelease)], events := [] }

def reqDry : UpdateReleaseRequest :=
  { name := "app", chart := some "c", values := none, dryRun := true,
    disableHooks := false, timeout := 0, annotations := [] }

def extAllOk : Ext :=
  { reuseVals := some (some "cfg"), capabilities := some "caps",
    renderVals := some "rv", renderRes := some (["h1"], "manifest", ""),
    validateRes := none, preHookRes := none, applyRes := none,
    postHookRes := none }

theorem claim_C8_witness :
    (updateRelease validNameSpec extAllOk 7 reqDry stWit).2.store = stWit.store ∧
      (updateRelease validNameSpec extAllOk 7 reqDry stWit).2.events.filter Event.isHookRun
        = stWit.events.filter Event.isHookRun ∧
      (updateRelease validNameSpec extAllOk 7 reqDry stWit).1.2 = none ∧
      ∃ rel, (updateRelease validNameSpec extAllOk 7 reqDry stWit).1.1 = some rel ∧
        rel.info.description = "Dry run complete" :=
  claim_C8 validNameSpec extAllOk 7 reqDry stWit "c" depRelease (some "cfg")
    "caps" "rv" ["h1"] "manifest" "" (by decide) rfl (by decide) rfl rfl rfl rfl rfl rfl

/-! ## Claim C4: post-upgrade hook failure commits nothing -/

/-- C4: when the cluster apply succeeds but a post-upgrade hook fails
(hooks enabled, non-dry-run), `UpdateRelease` returns the hook error and
performs no storage write at all: the store — including the old
release's `DEPLOYED` record — is byte-for-byte unchanged and the new
revision is never persisted; only the query and the two hook executions
appear in the event log. -/
theorem claim_C4 (validName : String → Bool) (ext : Ext) (ts : Int)
    (req : UpdateReleaseRequest) (s0 : OrchState)
    (ch : String) (cur : Release) (vals : Option String) (cap rvs : String)
    (hks : List String) (doc notes : String) (e : String)
    (hvn : validName req.name = true)
    (hch : req.chart = some ch)
    (hlast : lastRelease s0.store req.name = some cur)
    (hreuse : ext.reuseVals = some vals)
    (hcaps : ext.capabilities = some cap)
    (hrvals : ext.renderVals = some rvs)
    (hrender : ext.renderRes = some (hks, doc, notes))
    (hval : ext.validateRes = none)
    (hdry : req.dryRun = false)
    (hdh : req.disableHooks = false)
    (hpre : ext.preHookRes = none)
    (happ : ext.applyRes = none)
    (hpost : ext.postHookRes = some e) :
    (updateRelease validName ext ts req s0).2.store = s0.store ∧
      (updateRelease validName ext ts req s0).2.events.filter Event.isWrite
        = s0.events.filter Event.isWrite ∧
      (updateRelease validName ext ts req s0).1.2 = some (.hookFailed e) := by
  have hprep := prepareUpdate_ok validName ext ts req s0 ch cur vals cap rvs
    hks doc notes hvn hch hlast hreuse hcaps hrvals hrender hval
  have hdry' : ({ req with values := vals } : UpdateReleaseRequest).dryRun = false := by
    simpa using hdry
  have hdh' : ({ req with values := vals } : UpdateReleaseRequest).disableHooks = false := by
    simpa using hdh
  have hperf := performUpdate_postHookFail ext cur
    (buildUpdatedRelease cur { req with values := vals } ts hks doc notes)
    { req with values := vals }
    (logEvent s0 (.driverQuery (splitName req.name).1 (splitName req.name).2)) e
    hdry' hdh' hpre happ hpost
  have hmain : updateRelease validName ext ts req s0
      = ((some (buildUpdatedRelease cur { req with values := vals } ts hks doc notes),
          some (.hookFailed e)),
         logEvent (logEvent
           (logEvent s0 (.driverQuery (splitName req.name).1 (splitName req.name).2))
           (.hookRun "pre-upgrade")) (.hookRun "post-upgrade")) := by
    simp only [updateRelease, hprep, hperf]
  refine ⟨?_, ?_, ?_⟩
  · simp [hmain, logEvent]
  · simp [hmain, logEvent, Event.isWrite]
  · simp [hmain]

def reqUp : UpdateReleaseRequest :=
  { name := "app", chart := some "c", values := none, dryRun := false,
    disableHooks := false, timeout := 0, annotations := [] }

def extPostFail : Ext :=
  { reuseVals := some (some "cfg"), capabilities := some "caps",
    renderVals := some "rv", renderRes := some (["h1"], "manifest", ""),
    validateRes := none, preHookRes := none, applyRes := none,
    postHookRes := some "post boom" }

theorem claim_C4_witness :
    (updateRelease validNameSpec extPostFail 7 reqUp stWit).2.store = stWit.store ∧
      (updateRelease validNameSpec extPostFail 7 reqUp stWit).2.events.filter Event.isWrite
        = stWit.events.filter Event.isWrite ∧
      (updateRelease validNameSpec extPostFail 7 reqUp stWit).1.2
        = some (.hookFailed "post boom") :=
  claim_C4 validNameSpec extPostFail 7 reqUp stWit "c" depRelease (some "cfg")
    "caps" "rv" ["h1"] "manifest" "" "post boom" (by decide) rfl (by decide)
    rfl rfl rfl rfl rfl rfl rfl rfl rfl rfl

/-! ## Claim C2: apply failure persists both records and surfaces the error -/

theorem setStatus_name (r : Release) (c : StatusCode) : (setStatus r c).name = r.name := rfl

theorem setStatus_nspace (r : Release) (c : StatusCode) : (setStatus r c).nspace = r.nspace := rfl

theorem setStatus_version (r : Release) (c : StatusCode) : (setStatus r c).version = r.version := rfl

theorem setStatus_status (r : Release) (c : StatusCode) : (setStatus r c).info.status = c := rfl

theorem setDescription_name (r : Release) (d : String) : (setDescription r d).name = r.name := rfl

theorem setDescription_nspace (r : Release) (d : String) : (setDescription r d).nspace = r.nspace := rfl

theorem setDescription_version (r : Release) (d : String) : (setDescription r d).version = r.version := rfl

theorem setDescription_status (r : Release) (d : String) :
    (setDescription r d).info.status = r.info.status := rfl

theorem setDescription_description (r : Release) (d : String) :
    (setDescription r d).info.description = d := rfl

theorem hasKey_driverUpdate (k : String) (r : Release) :
    ∀ (st st' : List (String × Release)), driverUpdate st k r = some st' →
      ∀ k₁, Store.hasKey st' k₁ = Store.hasKey st k₁ := by
  intro st
  induction st with
  | nil => intro st' h; simp [driverUpdate] at h
  | cons p rest ih =>
    intro st' h k₁
    obtain ⟨k', r'⟩ := p
    by_cases hk : k' = k
    · simp only [driverUpdate, if_pos hk, Option.some.injEq] at h
      subst h
      subst hk
      simp [Store.hasKey]
    · simp only [driverUpdate, if_neg hk, Option.map_eq_some'] at h
      obtain ⟨a, ha, rfl⟩ := h
      simp only [Store.hasKey, List.any_cons]
      have := ih a ha k₁
      simp only [Store.hasKey] at this
      rw [this]

theorem ifHook_store (c : Prop) [Decidable c] (s : OrchState) (e : Event) :
    (if c then logEvent s e else s).store = s.store := by
  split <;> simp [logEvent]

/-- C2: on a non-dry-run update whose cluster apply fails (pre-hooks
succeeded or were disabled), the orchestrator marks the old release
`SUPERSEDED` and the new one `FAILED` with a description embedding the
error text, persists both records — the old at its existing key, the new
as a fresh revision — and returns the apply error. -/
theorem claim_C2 (validName : String → Bool) (ext : Ext) (ts : Int)
    (req : UpdateReleaseRequest) (s0 : OrchState)
    (ch : String) (cur : Release) (vals : Option String) (cap rvs : String)
    (hks : List String) (doc notes : String) (e : String)
    (hvn : validName req.name = true)
    (hch : req.chart = some ch)
    (hlast : lastRelease s0.store req.name = some cur)
    (hreuse : ext.reuseVals = some vals)
    (hcaps : ext.capabilities = some cap)
    (hrvals : ext.renderVals = some rvs)
    (hrender : ext.renderRes = some (hks, doc, notes))
    (hval : ext.validateRes = none)
    (hdry : req.dryRun = false)
    (hpre : req.disableHooks = true ∨ ext.preHookRes = none)
    (happ : ext.applyRes = some e)
    (hsl : '/' ∉ cur.name.data)
    (hkold : Store.hasKey s0.store (makeKey (key cur.nspace cur.name) cur.version) = true)
    (hknew : Store.hasKey s0.store (makeKey (key cur.nspace cur.name) (cur.version + 1)) = false) :
    ∃ failRec,
      (updateRelease validName ext ts req s0).1.1 = some failRec ∧
      (updateRelease validName ext ts req s0).1.2 = some (.applyFailed e) ∧
      failRec.info.status = .failed ∧
      failRec.info.description = "Upgrade " ++ quoteGo cur.name ++ " failed: " ++ e ∧
      (∃ a b, failRec.info.description = a ++ e ++ b) ∧
      failRec.version = cur.version + 1 ∧
      lookupStore (updateRelease validName ext ts req s0).2.store
          (makeKey (key cur.nspace cur.name) cur.version)
        = some (setStatus cur .superseded) ∧
      lookupStore (updateRelease validName ext ts req s0).2.store
          (makeKey (key cur.nspace cur.name) (cur.version + 1))
        = some failRec := by
  have hprep := prepareUpdate_ok validName ext ts req s0 ch cur vals cap rvs
    hks doc notes hvn hch hlast hreuse hcaps hrvals hrender hval
  have hdry' : ({ req with values := vals } : UpdateReleaseRequest).dryRun = false := by
    simpa using hdry
  have hpre' : ({ req with values := vals } : UpdateReleaseRequest).disableHooks = true
      ∨ ext.preHookRes = none := by
    rcases hpre with h | h
    · exact Or.inl (by simpa using h)
    · exact Or.inr h
  have hperf := performUpdate_applyFail ext cur
    (buildUpdatedRelease cur { req with values := vals } ts hks doc notes)
    { req with values := vals }
    (logEvent s0 (.driverQuery (splitName req.name).1 (splitName req.name).2)) e
    hdry' hpre' happ
  set bu := buildUpdatedRelease cur { req with values := vals } ts hks doc notes with hbu
  set failRec := setDescription (setStatus bu .failed)
    ("Upgrade " ++ quoteGo bu.name ++ " failed: " ++ e) with hfr
  set oldSup := setStatus cur .superseded with hos
  set sPre := (if ({ req with values := vals } : UpdateReleaseRequest).disableHooks = false then
      logEvent (logEvent s0 (.driverQuery (splitName req.name).1 (splitName req.name).2))
        (.hookRun "pre-upgrade")
    else logEvent s0 (.driverQuery (splitName req.name).1 (splitName req.name).2)) with hsp
  have hmain : updateRelease validName ext ts req s0
      = ((some failRec, some (.applyFailed e)),
         recordRelease failRec false (recordRelease oldSup true sPre)) := by
    simp only [updateRelease, hprep, hperf]
  -- key facts
  have hbuname : bu.name = cur.name := buildUpdated_name _ _ _ _ _ _
  have hbunspace : bu.nspace = cur.nspace := buildUpdated_nspace _ _ _ _ _ _
  have hbuversion : bu.version = cur.version + 1 := buildUpdated_version _ _ _ _ _ _
  have hfrname : failRec.name = cur.name := by
    rw [hfr, setDescription_name, setStatus_name, hbuname]
  have hosk : keyForRelease oldSup = (key cur.nspace cur.name, oldSup) := by
    rw [keyForRelease_no_slash oldSup (by rw [hos, setStatus_name]; exact hsl)]
    rw [hos, setStatus_nspace, setStatus_name]
  have hfrk : keyForRelease failRec = (key cur.nspace cur.name, failRec) := by
    rw [keyForRelease_no_slash failRec (by rw [hfrname]; exact hsl)]
    rw [hfrname, hfr, setDescription_nspace, setStatus_nspace, hbunspace]
  have hsprestore : sPre.store = s0.store := by
    rw [hsp]
    split <;> simp [logEvent]
  -- the superseded write
  have hupst := recordRelease_true_store oldSup sPre
  rw [hsprestore] at hupst
  have hosver : oldSup.version = cur.version := by
    rw [hos, setStatus_version]
  obtain ⟨st1, hst1⟩ := driverUpdate_hasKey
    (makeKey (key cur.nspace cur.name) cur.version) oldSup
    s0.store hkold
  have hupst1 : (recordRelease oldSup true sPre).store = st1 := by
    rw [hupst]
    simp only [updateStoreBE, storageUpdate, hosk, hosver, hst1]
  -- the failed-record create
  have hfrver : failRec.version = cur.version + 1 := by
    rw [hfr, setDescription_version, setStatus_version, hbuversion]
  have hknew1 : Store.hasKey st1 (makeKey (key cur.nspace cur.name) (cur.version + 1)) = false := by
    rw [hasKey_driverUpdate _ _ s0.store st1 hst1]
    exact hknew
  have hcrst := recordRelease_false_store failRec (recordRelease oldSup true sPre)
  rw [hupst1] at hcrst
  have hcrst2 : (recordRelease failRec false (recordRelease oldSup true sPre)).store
      = (makeKey (key cur.nspace cur.name) (cur.version + 1), failRec) :: st1 := by
    rw [hcrst]
    simp only [createStoreBE, storageCreate, hfrk, hfrver]
    rw [driverCreate_not_hasKey st1 _ failRec hknew1]
  have hkne : makeKey (key cur.nspace cur.name) cur.version
      ≠ makeKey (key cur.nspace cur.name) (cur.version + 1) := by
    intro hcontra
    rw [hcontra] at hkold
    rw [hkold] at hknew
    cases hknew
  refine ⟨failRec, ?_, ?_, ?_, ?_, ?_, ?_, ?_, ?_⟩
  · rw [hmain]
  · rw [hmain]
  · rw [hfr, setDescription_status, setStatus_status]
  · rw [hfr, setDescription_description, hbuname]
  · refine ⟨"Upgrade " ++ quoteGo cur.name ++ " failed: ", "", ?_⟩
    rw [hfr, setDescription_description, hbuname]
    simp
  · rw [hfr, setDescription_version, setStatus_version, hbuversion]
  · rw [hmain]
    simp only [hcrst2, lookupStore, if_neg (Ne.symm hkne)]
    exact lookupStore_driverUpdate_self _ _ s0.store st1 hst1
  · rw [hmain]
    simp [hcrst2, lookupStore]

def extApplyFail : Ext :=
  { reuseVals := some (some "cfg"), capabilities := some "caps",
    renderVals := some "rv", renderRes := some (["h1"], "manifest", ""),
    validateRes := none, preHookRes := none, applyRes := some "cluster boom",
    postHookRes := none }

theorem claim_C2_witness :
    ∃ failRec,
      (updateRelease validNameSpec extApplyFail 7 reqUp stWit).1.1 = some failRec ∧
      (updateRelease validNameSpec extApplyFail 7 reqUp stWit).1.2
        = some (.applyFailed "cluster boom") ∧
      failRec.info.status = .failed ∧
      failRec.info.description
        = "Upgrade " ++ quoteGo depRelease.name ++ " failed: " ++ "cluster boom" ∧
      (∃ a b, failRec.info.description = a ++ "cluster boom" ++ b) ∧
      failRec.version = depRelease.version + 1 ∧
      lookupStore (updateRelease validNameSpec extApplyFail 7 reqUp stWit).2.store
          (makeKey (key depRelease.nspace depRelease.name) depRelease.version)
        = some (setStatus depRelease .superseded) ∧
      lookupStore (updateRelease validNameSpec extApplyFail 7 reqUp stWit).2.store
          (makeKey (key depRelease.nspace depRelease.name) (depRelease.version + 1))
        = some failRec :=
  claim_C2 validNameSpec extApplyFail 7 reqUp stWit "c" depRelease (some "cfg")
    "caps" "rv" ["h1"] "manifest" "" "cluster boom" (by decide) rfl (by decide)
    rfl rfl rfl rfl rfl rfl (Or.inr rfl) rfl (by decide) (by decide) (by decide)

/-! ## Claim C3: the at-most-one-DEPLOYED discipline -/

theorem foldl_pickLast_spec :
    ∀ (l : List Release) (acc : Option Release) (r : Release),
      l.foldl pickLast acc = some r →
        (r ∈ l ∨ acc = some r) ∧
        (∀ q ∈ l, q.version ≤ r.version) ∧
        (∀ m, acc = some m → m.version ≤ r.version) := by
  intro l
  induction l with
  | nil =>
    intro acc r h
    simp only [List.foldl_nil] at h
    refine ⟨Or.inr h, by simp, ?_⟩
    intro m hm
    rw [h] at hm
    cases hm
    exact le_refl _
  | cons x rest ih =>
    intro acc r h
    simp only [List.foldl_cons] at h
    obtain ⟨h1, h2, h3⟩ := ih (pickLast acc x) r h
    have hpick : ∀ m, pickLast acc x = some m →
        (m = x ∨ acc = some m) ∧ x.version ≤ m.version ∧
        (∀ m₀, acc = some m₀ → m₀.version ≤ m.version) := by
      intro m hm
      cases acc with
      | none =>
        simp only [pickLast, Option.some.injEq] at hm
        subst hm
        exact ⟨Or.inl rfl, le_refl _, by simp⟩
      | some m₀ =>
        simp only [pickLast] at hm
        by_cases hv : x.version > m₀.version
        · rw [if_pos hv] at hm
          cases hm
          refine ⟨Or.inl rfl, le_refl _, ?_⟩
          intro m₁ hm₁
          cases hm₁
          exact le_of_lt hv
        · rw [if_neg hv] at hm
          cases hm
          push_neg at hv
          refine ⟨Or.inr rfl, hv, ?_⟩
          intro m₁ hm₁
          cases hm₁
          exact le_refl _
    have hsome : ∃ m, pickLast acc x = some m := by
      cases acc with
      | none => exact ⟨x, rfl⟩
      | some m₀ =>
        simp only [pickLast]
        by_cases hv : x.version > m₀.version
        · exact ⟨x, if_pos hv⟩
        · exact ⟨m₀, if_neg hv⟩
    obtain ⟨m, hm⟩ := hsome
    obtain ⟨hma, hmb, hmc⟩ := hpick m hm
    refine ⟨?_, ?_, ?_⟩
    · rcases h1 with h1 | h1
      · exact Or.inl (List.mem_cons_of_mem _ h1)
      · rw [hm] at h1
        cases h1
        rcases hma with rfl | hma
        · exact Or.inl (List.mem_cons_self _ _)
        · exact Or.inr hma
    · intro q hq
      rcases List.mem_cons.mp hq with rfl | hq
      · exact le_trans hmb (h3 m hm)
      · exact h2 q hq
    · intro m₀ hm₀
      exact le_trans (hmc m₀ hm₀) (h3 m hm)

theorem lastRelease_spec (st : Store) (nm : String) (cur : Release)
    (h : lastRelease st nm = some cur) :
    cur ∈ queryHistory st (splitName nm).1 (splitName nm).2 ∧
      ∀ r ∈ queryHistory st (splitName nm).1 (splitName nm).2,
        r.version ≤ cur.version := by
  unfold lastRelease at h
  obtain ⟨h1, h2, _⟩ := foldl_pickLast_spec _ none cur h
  rcases h1 with h1 | h1
  · exact ⟨h1, h2⟩
  · cases h1

theorem mem_queryHistory_iff (st : List (String × Release)) (ns n : String) (r : Release) :
    r ∈ queryHistory st ns n ↔
      (∃ k, (k, r) ∈ st) ∧ r.name = n ∧ r.nspace = ns := by
  simp only [queryHistory, List.mem_map, List.mem_filter]
  constructor
  · rintro ⟨⟨k, r'⟩, ⟨hmem, hpred⟩, rfl⟩
    simp only [Bool.and_eq_true, decide_eq_true_eq] at hpred
    exact ⟨⟨k, hmem⟩, hpred.1, hpred.2⟩
  · rintro ⟨⟨k, hmem⟩, hn, hs⟩
    exact ⟨(k, r), ⟨hmem, by simp [hn, hs]⟩, rfl⟩

/-- A successful preparation means `Last` found the current release. -/
theorem prepareUpdate_ok_inv (validName : String → Bool) (ext : Ext) (ts : Int)
    (req : UpdateReleaseRequest) (s0 : OrchState)
    (cur bu : Release) (req' : UpdateReleaseRequest) (s1 : OrchState)
    (h : prepareUpdate validName ext ts req s0 = (.ok (cur, bu, req'), s1)) :
    lastRelease s0.store req.name = some cur := by
  unfold prepareUpdate at h
  by_cases h1 : validName req.name = false
  · rw [if_pos h1] at h
    simp at h
  · rw [if_neg h1] at h
    cases hch : req.chart with
    | none => rw [hch] at h; simp at h
    | some c =>
      rw [hch] at h
      cases hlast : lastRelease s0.store req.name with
      | none => rw [hlast] at h; simp at h
      | some cur' =>
        rw [hlast] at h
        cases hr : ext.reuseVals with
        | none => rw [hr] at h; simp at h
        | some vals =>
          rw [hr] at h
          cases hc : ext.capabilities with
          | none => rw [hc] at h; simp at h
          | some cap =>
            rw [hc] at h
            cases hrv : ext.renderVals with
            | none => rw [hrv] at h; simp at h
            | some rvs =>
              rw [hrv] at h
              rcases hrr : ext.renderRes with _ | ⟨hks, doc, notes⟩
              · rw [hrr] at h; simp at h
              · rw [hrr] at h
                cases hv : ext.validateRes with
                | some m => rw [hv] at h; simp at h
                | none =>
                  rw [hv] at h
                  simp only [Prod.mk.injEq, Except.ok.injEq] at h
                  rw [h.1.1]

/-- The possible store effects of a non-dry-run `performUpdate`:
whenever it fails it has either left the store alone or performed the
superseded-then-failed dual write; whenever it succeeds it has exactly
superseded the old release. -/
theorem performUpdate_cases (ext : Ext) (old upd : Release)
    (req : UpdateReleaseRequest) (s : OrchState) (hdry : req.dryRun = false) :
    (∀ e, (performUpdate ext old upd req s).1.1 = some e →
      ((performUpdate ext old upd req s).2.store = s.store ∨
       ∃ x, (performUpdate ext old upd req s).2.store
         = createStoreBE x (updateStoreBE (setStatus old .superseded) s.store))) ∧
    ((performUpdate ext old upd req s).1.1 = none →
      (performUpdate ext old upd req s).2.store
        = updateStoreBE (setStatus old .superseded) s.store) := by
  have happly : ∀ (e : String) (hpre : req.disableHooks = true ∨ ext.preHookRes = none),
      ext.applyRes = some e →
      (performUpdate ext old upd req s).1.1 = some (.applyFailed e) ∧
      (performUpdate ext old upd req s).2.store
        = createStoreBE
            (setDescription (setStatus upd .failed)
              ("Upgrade " ++ quoteGo upd.name ++ " failed: " ++ e))
            (updateStoreBE (setStatus old .superseded) s.store) := by
    intro e hpre happ
    rw [performUpdate_applyFail ext old upd req s e hdry hpre happ]
    refine ⟨rfl, ?_⟩
    rw [recordRelease_false_store, recordRelease_true_store, ifHook_store]
  have hsucc : ∀ (hpre : req.disableHooks = true ∨ ext.preHookRes = none)
      (hpost : req.disableHooks = true ∨ ext.postHookRes = none),
      ext.applyRes = none →
      (performUpdate ext old upd req s).1.1 = none ∧
      (performUpdate ext old upd req s).2.store
        = updateStoreBE (setStatus old .superseded) s.store := by
    intro hpre hpost happ
    rw [performUpdate_success ext old upd req s hdry hpre happ hpost]
    refine ⟨rfl, ?_⟩
    rw [recordRelease_true_store]
    split <;> simp [logEvent]
  cases hdh : req.disableHooks with
  | true =>
    cases happ : ext.applyRes with
    | some e =>
      obtain ⟨h1, h2⟩ := happly e (Or.inl hdh) happ
      constructor
      · intro e' he'
        exact Or.inr ⟨_, h2⟩
      · intro hnone
        rw [h1] at hnone
        cases hnone
    | none =>
      obtain ⟨h1, h2⟩ := hsucc (Or.inl hdh) (Or.inl hdh) happ
      constructor
      · intro e' he'
        rw [h1] at he'
        cases he'
      · intro _
        exact h2
  | false =>
    cases hpre : ext.preHookRes with
    | some m =>
      rw [performUpdate_preHookFail ext old upd req s m hdry hdh hpre]
      constructor
      · intro e' he'
        left
        simp [logEvent]
      · intro hnone
        cases hnone
    | none =>
      cases happ : ext.applyRes with
      | some e =>
        obtain ⟨h1, h2⟩ := happly e (Or.inr hpre) happ
        constructor
        · intro e' he'
          exact Or.inr ⟨_, h2⟩
        · intro hnone
          rw [h1] at hnone
          cases hnone
      | none =>
        cases hpost : ext.postHookRes with
        | some m =>
          rw [performUpdate_postHookFail ext old upd req s m hdry hdh hpre happ hpost]
          constructor
          · intro e' he'
            left
            simp [logEvent]
          · intro hnone
            cases hnone
        | none =>
          obtain ⟨h1, h2⟩ := hsucc (Or.inr hpre) (Or.inr hpost) happ
          constructor
          · intro e' he'
            rw [h1] at he'
            cases he'
          · intro _
            exact h2

theorem storageCreateEv_store (r : Release) (s : OrchState) :
    ((storageCreateEv r s).2).store = createStoreBE r s.store := by
  simp only [storageCreateEv, createStoreBE, storageCreate, logEvent]
  cases h : driverCreate s.store (makeKey (keyForRelease r).1 (keyForRelease r).2.version)
      (keyForRelease r).2 <;> simp [h]

/-- Every run of `UpdateRelease` either leaves the store untouched, or
performs the supersede-old write (at the old release's derived key)
followed by at most one best-effort create. -/
theorem updateRelease_store_cases (validName : String → Bool) (ext : Ext) (ts : Int)
    (req : UpdateReleaseRequest) (s0 : OrchState) :
    (updateRelease validName ext ts req s0).2.store = s0.store ∨
    (∃ cur x, lastRelease s0.store req.name = some cur ∧
      (updateRelease validName ext ts req s0).2.store =
        createStoreBE x (updateStoreBE (setStatus cur .superseded) s0.store)) := by
  cases hprep : prepareUpdate validName ext ts req s0 with
  | mk res s1 =>
    have hs1 : s1.store = s0.store := by
      have h := prepareUpdate_store validName ext ts req s0
      rw [hprep] at h
      exact h
    cases res with
    | error e =>
      left
      simp only [updateRelease, hprep]
      exact hs1
    | ok t =>
      obtain ⟨cur, bu, req'⟩ := t
      have hlast : lastRelease s0.store req.name = some cur :=
        prepareUpdate_ok_inv validName ext ts req s0 cur bu req' s1 hprep
      by_cases hdry : req'.dryRun = true
      · left
        have hres : updateRelease validName ext ts req s0
            = ((some (setDescription bu "Dry run complete"), none), s1) := by
          simp only [updateRelease, hprep, performUpdate_dryRun ext cur bu req' s1 hdry]
          simp [hdry]
        rw [hres]
        exact hs1
      · have hdryf : req'.dryRun = false := by
          revert hdry
          cases req'.dryRun <;> simp
        obtain ⟨hfail, hok⟩ := performUpdate_cases ext cur bu req' s1 hdryf
        cases hperf : performUpdate ext cur bu req' s1 with
        | mk p s2 =>
          rw [hperf] at hfail hok
          obtain ⟨errOpt, upd'⟩ := p
          simp only at hfail hok
          cases errOpt with
          | some e =>
            have hcase := hfail e rfl
            have hres : updateRelease validName ext ts req s0 = ((some upd', some e), s2) := by
              simp only [updateRelease, hprep, hperf]
            rcases hcase with hc | ⟨x, hc⟩
            · left
              rw [hres]
              exact hc.trans hs1
            · right
              rw [hs1] at hc
              exact ⟨cur, x, hlast, by rw [hres]; exact hc⟩
          | none =>
            have hsok := hok rfl
            rw [hs1] at hsok
            cases hcr : storageCreateEv upd' s2 with
            | mk errc s3 =>
              have hfinal : (updateRelease validName ext ts req s0).2 = s3 := by
                simp only [updateRelease, hprep, hperf, hdryf, hcr]
                cases errc <;> simp
              have hs3 : s3.store = createStoreBE upd' s2.store := by
                have h := storageCreateEv_store upd' s2
                rw [hcr] at h
                exact h
              right
              refine ⟨cur, upd', hlast, ?_⟩
              rw [hfinal, hs3, hsok]

/-- Test for a record being a `DEPLOYED` entry of the given identity. -/
def deployedIdentB (nspace name : String) (p : String × Release) : Bool :=
  decide (p.2.nspace = nspace) && decide (p.2.name = name) &&
    decide (p.2.info.status = StatusCode.deployed)

/-- Number of `DEPLOYED` records for one `(namespace, name)` identity. -/
def deployedCount (st : Store) (nspace name : String) : Nat :=
  ((st : List (String × Release)).filter (deployedIdentB nspace name)).length

theorem length_le_one_of_nodup (l : List String) (hnd : l.Nodup)
    (h : ∀ a ∈ l, ∀ b ∈ l, a = b) : l.length ≤ 1 := by
  cases l with
  | nil => simp
  | cons x t =>
    cases t with
    | nil => simp
    | cons y t2 =>
      exfalso
      have hxy : x = y := h x (by simp) y (by simp)
      rw [List.nodup_cons] at hnd
      exact hnd.1 (by rw [hxy]; exact List.mem_cons_self _ _)

theorem deployedCount_le_one (st : List (String × Release)) (ns n : String)
    (hnd : (st.map Prod.fst).Nodup)
    (hsame : ∀ p ∈ st, deployedIdentB ns n p = true →
      ∀ q ∈ st, deployedIdentB ns n q = true → p.1 = q.1) :
    deployedCount st ns n ≤ 1 := by
  unfold deployedCount
  have hsub : ((st.filter (deployedIdentB ns n)).map Prod.fst).Nodup :=
    List.Nodup.sublist (List.Sublist.map _ (List.filter_sublist st)) hnd
  have hall : ∀ a ∈ (st.filter (deployedIdentB ns n)).map Prod.fst,
      ∀ b ∈ (st.filter (deployedIdentB ns n)).map Prod.fst, a = b := by
    intro a ha b hb
    rcases List.mem_map.mp ha with ⟨p, hp, rfl⟩
    rcases List.mem_map.mp hb with ⟨q, hq, rfl⟩
    have hp' := List.mem_filter.mp hp
    have hq' := List.mem_filter.mp hq
    exact hsame p hp'.1 hp'.2 q hq'.1 hq'.2
  have h := length_le_one_of_nodup _ hsub hall
  rw [List.length_map] at h
  exact h

theorem deployedCount_eq_zero (st : List (String × Release)) (ns n : String)
    (h : ∀ p ∈ st, ¬ deployedIdentB ns n p = true) :
    deployedCount st ns n = 0 := by
  unfold deployedCount
  rw [List.length_eq_zero, List.filter_eq_nil_iff]
  exact h

theorem hasKey_of_mem (st : List (String × Release)) (p : String × Release)
    (hp : p ∈ st) : Store.hasKey st p.1 = true := by
  simp only [Store.hasKey, List.any_eq_true]
  exact ⟨p, hp, by simp⟩

theorem deployedCount_createStoreBE_le (r : Release)
    (st : List (String × Release)) (ns n : String) :
    deployedCount (createStoreBE r st) ns n ≤ deployedCount st ns n + 1 := by
  cases h : driverCreate st (makeKey (keyForRelease r).1 (keyForRelease r).2.version)
      (keyForRelease r).2 with
  | none =>
    have heq : createStoreBE r st = st := by
      simp only [createStoreBE, storageCreate]
      rw [h]
    rw [heq]
    omega
  | some st' =>
    have heq : createStoreBE r st = st' := by
      simp only [createStoreBE, storageCreate]
      rw [h]
    rw [heq]
    unfold driverCreate at h
    split at h
    · cases h
    · simp only [Option.some.injEq] at h
      subst h
      unfold deployedCount
      rw [List.filter_cons]
      split
      · simp
      · simp

theorem deployedCount_updateStoreBE_zero (st : List (String × Release))
    (ns n : String) (r : Release)
    (hall : ∀ p ∈ st, deployedIdentB ns n p = true →
      p.1 = makeKey (keyForRelease r).1 (keyForRelease r).2.version)
    (hnd : (st.map Prod.fst).Nodup)
    (hr : (keyForRelease r).2.info.status ≠ .deployed) :
    deployedCount (updateStoreBE r st) ns n = 0 := by
  cases hdu : driverUpdate st (makeKey (keyForRelease r).1 (keyForRelease r).2.version)
      (keyForRelease r).2 with
  | none =>
    have heq : updateStoreBE r st = st := by
      simp only [updateStoreBE, storageUpdate]
      rw [hdu]
    rw [heq]
    have hnk := driverUpdate_none _ _ st hdu
    apply deployedCount_eq_zero
    intro p hp hcon
    have hpk := hall p hp hcon
    have := hasKey_of_mem st p hp
    rw [hpk, hnk] at this
    cases this
  | some st' =>
    have heq : updateStoreBE r st = st' := by
      simp only [updateStoreBE, storageUpdate]
      rw [hdu]
    rw [heq]
    apply deployedCount_eq_zero
    intro p hp hcon
    rcases mem_driverUpdate _ _ st st' hdu p hp with rfl | hmem
    · simp only [deployedIdentB, Bool.and_eq_true, decide_eq_true_eq] at hcon
      exact hr hcon.2
    · have hpk := hall p hmem hcon
      have hkr2 : (makeKey (keyForRelease r).1 (keyForRelease r).2.version,
          (keyForRelease r).2) ∈ st' :=
        lookupStore_mem _ st' _ (lookupStore_driverUpdate_self _ _ st st' hdu)
      have hnd' : (st'.map Prod.fst).Nodup := by
        rw [driverUpdate_map_fst _ _ st st' hdu]
        exact hnd
      have hpp : (makeKey (keyForRelease r).1 (keyForRelease r).2.version, p.2) ∈ st' := by
        rw [← hpk]
        simpa using hp
      have heq := nodup_key_eq st' hnd' hpp hkr2
      simp only [deployedIdentB, Bool.and_eq_true, decide_eq_true_eq] at hcon
      apply hr
      rw [← heq]
      exact hcon.2

/-- A second revision of `"app"` that failed, outranking the deployed one. -/
def failedRel : Release :=
  { name := "app", nspace := "", version := 4, manifest := "m",
    hooks := [], config := some "cfg", chart := some "c",
    info := { status := .failed, description := "failed", notes := "",
              firstDeployed := 0, lastDeployed := 0 },
    annotations := [] }

/-- A history whose `DEPLOYED` revision (3) is older than its latest
revision (4, `FAILED`) — the state left behind by a previously failed
upgrade. -/
def stWit2 : OrchState :=
  { store := [(makeKey (key "" "app") 3, depRelease),
              (makeKey (key "" "app") 4, failedRel)],
    events := [] }

/-- C3, as stated, is false: when the latest revision is not the deployed
one (here revision 4 is `FAILED` while revision 3 is `DEPLOYED`), a fully
successful update supersedes only the latest revision and creates a new
`DEPLOYED` revision 5, leaving the old `DEPLOYED` revision 3 untouched —
after a completed non-dry-run update the history holds two `DEPLOYED`
records for the identity `("", "app")`. -/
theorem claim_C3_counterexample :
    (updateRelease validNameSpec extAllOk 7 reqUp stWit2).1.2 = none ∧
      deployedCount ((updateRelease validNameSpec extAllOk 7 reqUp stWit2).2.store)
        "" "app" = 2 := by
  decide

/-- C3 (amended): provided every `DEPLOYED` record of the identity sits at
its canonical storage key and carries the highest version of the
identity's history (in particular the history is well-keyed — distinct
entries have distinct keys), then after every completed update — any
dry-run flag, hook outcome, apply outcome, or persistence outcome — the
history never contains two `DEPLOYED` records for that identity: the old
release's `SUPERSEDED` write replaces the deployed record before the new
release's terminal status is created. -/
theorem claim_C3 (validName : String → Bool) (ext : Ext) (ts : Int)
    (req : UpdateReleaseRequest) (s0 : OrchState)
    (hnd : ((s0.store : List (String × Release)).map Prod.fst).Nodup)
    (hP : ∀ p ∈ (s0.store : List (String × Release)),
      deployedIdentB (splitName req.name).1 (splitName req.name).2 p = true →
        p.1 = makeKey (key (splitName req.name).1 (splitName req.name).2) p.2.version ∧
        ∀ q ∈ (s0.store : List (String × Release)),
          q.2.nspace = (splitName req.name).1 → q.2.name = (splitName req.name).2 →
            q.2.version ≤ p.2.version) :
    deployedCount ((updateRelease validName ext ts req s0).2.store)
      (splitName req.name).1 (splitName req.name).2 ≤ 1 := by
  rcases updateRelease_store_cases validName ext ts req s0 with hsame | ⟨cur, x, hlast, hshape⟩
  · rw [hsame]
    apply deployedCount_le_one s0.store _ _ hnd
    intro p hp hpb q hq hqb
    obtain ⟨hpk, hpmax⟩ := hP p hp hpb
    obtain ⟨hqk, hqmax⟩ := hP q hq hqb
    have hpb' := hpb
    have hqb' := hqb
    simp only [deployedIdentB, Bool.and_eq_true, decide_eq_true_eq] at hpb' hqb'
    have h1 : q.2.version ≤ p.2.version := hpmax q hq hqb'.1.1 hqb'.1.2
    have h2 : p.2.version ≤ q.2.version := hqmax p hp hpb'.1.1 hpb'.1.2
    have hv : p.2.version = q.2.version := le_antisymm h2 h1
    rw [hpk, hqk, hv]
  · obtain ⟨hcur1, hcurmax⟩ := lastRelease_spec s0.store req.name cur hlast
    obtain ⟨⟨kc, hkc⟩, hcn, hcs⟩ := (mem_queryHistory_iff s0.store _ _ cur).mp hcur1
    have hnsl : '/' ∉ (splitName req.name).2.data := splitName_snd_no_slash req.name
    have hsl' : '/' ∉ (setStatus cur .superseded).name.data := by
      rw [setStatus_name, hcn]
      exact hnsl
    have hkfr : keyForRelease (setStatus cur .superseded)
        = (key (splitName req.name).1 (splitName req.name).2, setStatus cur .superseded) := by
      rw [keyForRelease_no_slash _ hsl', setStatus_nspace, setStatus_name, hcn, hcs]
    rw [hshape]
    have h0 : deployedCount
        (updateStoreBE (setStatus cur .superseded) s0.store)
        (splitName req.name).1 (splitName req.name).2 = 0 := by
      apply deployedCount_updateStoreBE_zero s0.store _ _ (setStatus cur .superseded)
        ?_ hnd ?_
      · intro p hp hpb
        obtain ⟨hpk, hpmax⟩ := hP p hp hpb
        have hpb' := hpb
        simp only [deployedIdentB, Bool.and_eq_true, decide_eq_true_eq] at hpb'
        have hple : p.2.version ≤ cur.version := by
          apply hcurmax
          rw [mem_queryHistory_iff]
          exact ⟨⟨p.1, by simpa using hp⟩, hpb'.1.2, hpb'.1.1⟩
        have hcle : cur.version ≤ p.2.version := hpmax (kc, cur) hkc hcs hcn
        have hveq : p.2.version = cur.version := le_antisymm hple hcle
        rw [hpk, hkfr, hveq]
        rfl
      · rw [hkfr]
        intro hcontra
        cases hcontra
    have hle := deployedCount_createStoreBE_le x
      (updateStoreBE (setStatus cur .superseded) s0.store)
      (splitName req.name).1 (splitName req.name).2
    omega

theorem claim_C3_witness :
    deployedCount ((updateRelease validNameSpec extAllOk 7 reqUp stWit).2.store)
      (splitName reqUp.name).1 (splitName reqUp.name).2 ≤ 1 :=
  claim_C3 validNameSpec extAllOk 7 reqUp stWit (by decide) (by decide)
